import Mathlib

/-!
# Verification of the cqlengine schema-management module

A shallow embedding of `cassandra/cqlengine/management.py`: the schema
reconciliation engine that synchronizes declared table models and
user-defined types (UDTs) against live cluster metadata.

The live cluster is modelled as explicit state (`LiveKeyspace`); every CQL
statement the module would pass to `execute` is recorded in a trace
(`Stmt`), and statement execution is given a semantics (`applyStmt`) that
updates the state and fails exactly where a real cluster would reject the
statement (duplicate column family, duplicate column, duplicate index,
duplicate type or field).

Parts of the repository that `management.py` calls but that are outside the
given source file (the `metadata` option rendering, `columns.resolve_udts`,
`col.get_column_def`) are modelled from the spec; each such definition or
field carries a comment saying so.
-/

set_option maxHeartbeats 1000000

/-- Association-list lookup (Python `dict[k]` / `dict.get(k)`). -/
def alookup {α : Type} : List (String × α) → String → Option α
  | [], _ => none
  | (k, v) :: rest, n => if k = n then some v else alookup rest n

/-- Association-list insert-or-replace (Python `dict[k] = v`): replaces the
first binding of `n` in place, otherwise appends. -/
def aset {α : Type} : List (String × α) → String → α → List (String × α)
  | [], n, v => [(n, v)]
  | (k, w) :: rest, n, v =>
    if k = n then (k, v) :: rest else (k, w) :: aset rest n v

/-- Set-flavoured insert used to model Python `set.add`. -/
def insertNew (l : List String) (u : String) : List String :=
  if u ∈ l then l else l ++ [u]

/-- A normalized table-option value: either an opaque scalar string or a
nested key→value map, as produced by `_options_map_from_strings`
(management.py lines 330-342). -/
inductive OptVal : Type where
  | scalar (s : String)
  | nested (m : List (String × String))
deriving DecidableEq, Repr

/-- Live metadata of one user-defined type: its field names
(`TypeMetadata.field_names`, read at management.py line 250). -/
structure ULiveType : Type where
  field_names : List String
deriving DecidableEq, Repr

/-- Live metadata of one table: column names, primary-key column names,
index names and normalized options (`TableMetadata` as consumed by
management.py lines 164-201 and 314-318). -/
structure LiveTable : Type where
  columns : List String
  primary_key : List String
  indexes : List String
  options : List (String × OptVal)
deriving DecidableEq, Repr

/-- Live metadata of the keyspace the model lives in
(`cluster.metadata.keyspaces[ks_name]`, management.py line 142):
its tables and its user-defined types. -/
structure LiveKeyspace : Type where
  tables : List (String × LiveTable)
  user_types : List (String × ULiveType)
deriving DecidableEq, Repr

/-- A declared column of a table model (`model._columns` entries).
`column_def` is the rendered `col.get_column_def()` string and
`resolved_udts` is the output of `columns.resolve_udts(col, [])`.

Modelled from the spec: `get_column_def` and `resolve_udts` live in
`cqlengine/columns.py`, outside the given source; per spec §4.4 step 2 and
§4.3, `resolved_udts` is the full list of user-defined type names reachable
from the column's type, listed children before parents. -/
structure ModelColumn : Type where
  name : String
  db_field_name : String
  primary_key : Bool
  partition_key : Bool
  clustering_order : Option String
  index : Bool
  column_def : String
  resolved_udts : List String
deriving DecidableEq, Repr

/-- A declared table model, restricted to the data `sync_table` reads.
`options` is the declared `model.__options__` already normalized to
name → scalar-or-map form.

Modelled from the spec: the normalization pipeline
(`metadata.TableMetadataV3._make_option_strings` followed by
`_options_map_from_strings`, management.py lines 358-362) round-trips
through the external `metadata` renderer, which is outside the given
source; per spec §4.2 both sides are brought to the same normalized
name→value mapping before diffing, so the model carries its options
already in that normal form. -/
structure TableModel : Type where
  abstract : Bool
  cf_name : String
  raw_cf_name : String
  ks_name : String
  columns : List ModelColumn
  options : List (String × OptVal)
deriving DecidableEq, Repr

/-- A declared field of a user-defined type model (`type_model._fields`
entries), with the same spec-modelled `column_def` and `resolved_udts`
as `ModelColumn`. -/
structure UDTField : Type where
  db_field_name : String
  column_def : String
  resolved_udts : List String
deriving DecidableEq, Repr

/-- A declared user-defined type model: its ordered fields. -/
structure UDTModelDef : Type where
  fields : List UDTField
deriving DecidableEq, Repr

/-- The universe of declared user-defined type models, keyed by
`type_model.type_name()`. -/
abbrev UDTEnv : Type := List (String × UDTModelDef)

/-- Failures reported by statement execution (the `execute` collaborator,
spec §6: a `StatementError` carrying a driver-supplied message). -/
inductive ExecErr : Type where
  | cfAlreadyExists (cf : String)
  | columnExists (c : String)
  | indexExists (i : String)
  | typeExists (t : String)
  | fieldExists (f : String)
  | noSuchTable (t : String)
  | duplicateColumns (cf : String)
  | duplicateFields (t : String)
  | custom (msg : String)
deriving DecidableEq, Repr

/-- The driver-supplied message carried by an execution failure.  The
"already exists" message is the one management.py line 162 pattern-matches
(Cassandra 1.2 wording, per the comment at lines 160-161). -/
def ExecErr.message : ExecErr → String
  | .cfAlreadyExists cf => "Cannot add already existing column family " ++ cf
  | .columnExists c => "Invalid column name " ++ c ++ " because it conflicts with an existing column"
  | .indexExists i => "Index " ++ i ++ " already exists"
  | .typeExists t => "The type " ++ t ++ " already exists"
  | .fieldExists f => "Cannot add new field " ++ f ++ " to type: a field with that name already exists"
  | .noSuchTable t => "unconfigured table " ++ t
  | .duplicateColumns cf => "Multiple definition of identifier in table " ++ cf
  | .duplicateFields t => "Duplicate field name in type " ++ t
  | .custom m => m

/-- Errors raised by the synchronization functions themselves. -/
inductive SyncErr : Type where
  /-- a statement failure propagated unchanged (spec §7 (c)) -/
  | exec (e : ExecErr)
  /-- `KeyError("Invalid table option: ...")`, management.py line 369 -/
  | unknownOption (n : String)
  /-- the unhandled error from iterating `value.items()` on a scalar
  desired value while the live value is a nested map
  (management.py line 375) -/
  | attrError
  /-- `CQLEngineException("cannot create table from abstract model")`,
  management.py line 133 -/
  | abstractModel
  /-- `KeyError` on `keyspaces[ks].tables[raw_cf_name]`
  (management.py lines 187, 326) -/
  | tableMetaMissing (t : String)
  /-- recursion fuel exhausted: the declared type graph is circular or
  deeper than the supplied fuel (spec §3: cycles are a configuration
  error, not handled) -/
  | fuelExhausted
  /-- a referenced type name has no declared model in the environment -/
  | missingUdt (t : String)
deriving DecidableEq, Repr

/-- The CQL statements `management.py` can hand to `execute`, carried in
structured form; `Stmt.render` below produces the exact statement text the
source builds. -/
inductive Stmt : Type where
  /-- `_get_create_table(model)`, executed at management.py line 158 -/
  | createTable (m : TableModel)
  /-- `"ALTER TABLE {cf} add {col_def}"`, line 178 -/
  | alterTableAdd (cf raw_cf db col_def : String)
  /-- `"ALTER TABLE {cf} WITH {options}"`, line 384 -/
  | alterTableWith (cf raw_cf : String) (upd : List (String × OptVal))
  /-- `'CREATE INDEX {idx} ON {cf} ("{db}")'`, lines 197-200 -/
  | createIndex (idx cf raw_cf db : String)
  /-- `get_create_type(type_model, ks)`, executed at line 246 -/
  | createType (ks t : String) (field_dbs field_defs : List String)
  /-- `"ALTER TYPE {ks.t} ADD {field_def}"`, line 255 -/
  | alterTypeAdd (type_qualified t db col_def : String)
deriving DecidableEq, Repr

/-- `", "`-join (Python `', '.join`). -/
def commaJoin (l : List String) : String := String.intercalate ", " l

/-- Renders one normalized option back to a `name = value` clause.

Modelled from the spec: option encoding is delegated to the external
`metadata.TableMetadataV3._make_option_strings` collaborator (spec §4.2
`encode`); rendered here as the canonical `name = value` form with nested
maps written back as brace literals. -/
def renderOptVal : OptVal → String
  | .scalar s => s
  | .nested m =>
    "\x7b" ++ commaJoin (m.map (fun kv => "'" ++ kv.1 ++ "': '" ++ kv.2 ++ "'")) ++ "\x7d"

/-- Renders an option map to `AND`-joined clauses (spec §4.2 `encode`). -/
def renderOptions (opts : List (String × OptVal)) : String :=
  String.intercalate " AND " (opts.map (fun nv => nv.1 ++ " = " ++ renderOptVal nv.2))

/-- `_get_create_table(model)` (management.py lines 276-311): column list,
`PRIMARY KEY ((partition keys), clustering keys)` with the partition keys
always parenthesized as a group, a `CLUSTERING ORDER BY` clause when a
clustering key declares an order, then the rendered options as `WITH`. -/
def _get_create_table (m : TableModel) : String :=
  let pkeys := (m.columns.filter (fun c => c.primary_key && c.partition_key)).map
    (fun c => "\"" ++ c.db_field_name ++ "\"")
  let ckeys := (m.columns.filter (fun c => c.primary_key && !c.partition_key)).map
    (fun c => "\"" ++ c.db_field_name ++ "\"")
  let qtypes := m.columns.map (fun c => c.column_def)
  let pkClause := "PRIMARY KEY ((" ++ commaJoin pkeys ++ ")" ++
    (if ckeys.isEmpty then "" else ", " ++ commaJoin ckeys) ++ ")"
  let order := (m.columns.filter (fun c => c.primary_key && !c.partition_key)).map
    (fun c => "\"" ++ c.db_field_name ++ "\" " ++ (c.clustering_order.getD "ASC"))
  let props := (if order.isEmpty then [] else
      ["CLUSTERING ORDER BY (" ++ commaJoin order ++ ")"]) ++
    (if m.options.isEmpty then [] else [renderOptions m.options])
  "CREATE TABLE " ++ (m.cf_name ++ " (" ++ commaJoin (qtypes ++ [pkClause]) ++ ")" ++
    (if props.isEmpty then "" else " WITH " ++ String.intercalate " AND " props))

/-- `get_create_type` (management.py lines 268-273).

Modelled from the spec: the statement text is produced by the external
`metadata.UserType.as_cql_query` collaborator; rendered as the canonical
CREATE TYPE form over the declared fields. -/
def renderCreateType (ks t : String) (field_defs : List String) : String :=
  "CREATE TYPE " ++ (ks ++ "." ++ t ++ " (" ++ commaJoin field_defs ++ ")")

/-- The exact statement text the source builds for each traced statement. -/
def Stmt.render : Stmt → String
  | .createTable m => _get_create_table m
  | .alterTableAdd cf _ _ col_def => "ALTER TABLE " ++ cf ++ " add " ++ col_def
  | .alterTableWith cf _ upd => "ALTER TABLE " ++ cf ++ " WITH " ++ renderOptions upd
  | .createIndex idx cf _ db => "CREATE INDEX " ++ (idx ++ " ON " ++ cf ++ " (\"" ++ db ++ "\")")
  | .createType ks t _ field_defs => renderCreateType ks t field_defs
  | .alterTypeAdd tq _ _ col_def => "ALTER TYPE " ++ tq ++ " ADD " ++ col_def

/-- Boolean duplicate-freedom of a list of names. -/
def nodupB : List String → Bool
  | [] => true
  | x :: rest => !(x ∈ rest : Bool) && nodupB rest

/-- Semantics of executing one statement against the live keyspace: the
state update a healthy cluster performs, failing exactly where a real
cluster rejects the statement.  `CREATE` statements fail when the object
(or a duplicate inner name) already exists, additive `ALTER`s fail when
the added name is already present; `ALTER ... WITH` rewrites the named
options. -/
def applyStmt (s : LiveKeyspace) : Stmt → Except ExecErr LiveKeyspace
  | .createTable m =>
    if (alookup s.tables m.raw_cf_name).isSome then
      .error (.cfAlreadyExists m.cf_name)
    else if !nodupB (m.columns.map (fun c => c.db_field_name)) then
      .error (.duplicateColumns m.cf_name)
    else
      let t : LiveTable :=
        { columns := m.columns.map (fun c => c.db_field_name)
          primary_key := (m.columns.filter (fun c => c.primary_key)).map
            (fun c => c.db_field_name)
          indexes := []
          options := m.options }
      .ok { s with tables := aset s.tables m.raw_cf_name t }
  | .alterTableAdd cf raw db _ =>
    match alookup s.tables raw with
    | none => .error (.noSuchTable cf)
    | some t =>
      if db ∈ t.columns then .error (.columnExists db)
      else .ok { s with tables := aset s.tables raw ({ t with columns := t.columns ++ [db] }) }
  | .alterTableWith cf raw upd =>
    match alookup s.tables raw with
    | none => .error (.noSuchTable cf)
    | some t =>
      let t2 : LiveTable :=
        { t with options := upd.foldl (fun o nv => aset o nv.1 nv.2) t.options }
      .ok { s with tables := aset s.tables raw t2 }
  | .createIndex idx cf raw _ =>
    match alookup s.tables raw with
    | none => .error (.noSuchTable cf)
    | some t =>
      if idx ∈ t.indexes then .error (.indexExists idx)
      else .ok { s with tables := aset s.tables raw ({ t with indexes := t.indexes ++ [idx] }) }
  | .createType _ t field_dbs _ =>
    if (alookup s.user_types t).isSome then .error (.typeExists t)
    else if !nodupB field_dbs then .error (.duplicateFields t)
    else .ok { s with user_types := aset s.user_types t ({ field_names := field_dbs }) }
  | .alterTypeAdd _ t db _ =>
    match alookup s.user_types t with
    | none => .error (.noSuchTable t)
    | some ut =>
      if db ∈ ut.field_names then .error (.fieldExists db)
      else
        let ut2 : ULiveType := { field_names := ut.field_names ++ [db] }
        .ok { s with user_types := aset s.user_types t ut2 }

/-! ## Option decoding (`_options_map_from_strings`, lines 330-342) -/

/-- Python `str.find('\x7b') >= 0` on the value part: is a brace present
anywhere? -/
def hasBrace (v : List Char) : Bool := v.contains '\x7b'

/-- The index of the last `c` in `l`, if any (Python `str.rfind`). -/
def lastIdxOf (l : List Char) (c : Char) : Option Nat :=
  match l.reverse.findIdx? (fun x => x = c) with
  | none => none
  | some j => some (l.length - 1 - j)

/-- Python `value[value.find('\x7b') : value.rfind('\x7d') + 1]`
(management.py line 337): the segment from the first opening brace through
the last closing brace; empty when the slice is empty or reversed. -/
def sliceClip (v : List Char) : List Char :=
  let i := v.findIdx (fun x => x = '\x7b')
  match lastIdxOf v '\x7d' with
  | none => []
  | some j => (v.drop i).take (j + 1 - i)

/-- Python `.replace("'", '"')` (line 337): CQL single quotes to JSON
double quotes. -/
def replaceQuotes (v : List Char) : List Char :=
  v.map (fun c => if c = '\'' then '"' else c)

/-- Whitespace test for the little JSON reader. -/
def isWsChar (c : Char) : Bool := c = ' ' || c = '\t' || c = '\n' || c = '\r'

/-- Drop leading whitespace. -/
def skipWs : List Char → List Char
  | [] => []
  | c :: rest => if isWsChar c then skipWs rest else c :: rest

/-- Read characters up to (excluding) the closing `"`; returns the string
and the remainder after the quote. -/
def readQuoted : List Char → Option (String × List Char)
  | [] => none
  | c :: rest =>
    if c = '"' then some ("", rest)
    else match readQuoted rest with
      | none => none
      | some (s, rem) => some (String.mk (c :: s.toList), rem)

/-- Read a bare token (number, boolean) up to a delimiter. -/
def readToken : List Char → (List Char × List Char)
  | [] => ([], [])
  | c :: rest =>
    if c = ',' || c = '\x7d' || isWsChar c then ([], c :: rest)
    else
      let (tok, rem) := readToken rest
      (c :: tok, rem)

/-- Read one JSON value of the flat object: a quoted string or a bare
token. -/
def readVal (l : List Char) : Option (String × List Char) :=
  match skipWs l with
  | [] => none
  | c :: rest =>
    if c = '"' then readQuoted rest
    else
      let (tok, rem) := readToken (c :: rest)
      if tok.isEmpty then none else some (String.mk tok, rem)

/-- Reads `"key": value` pairs separated by `,` and terminated by the
closing brace, with fuel bounded by the input length. -/
def readEntries : Nat → List Char → Option (List (String × String))
  | 0, _ => none
  | fuel + 1, l =>
    match skipWs l with
    | '"' :: rest =>
      match readQuoted rest with
      | none => none
      | some (k, rem) =>
        match skipWs rem with
        | ':' :: rem2 =>
          match readVal rem2 with
          | none => none
          | some (v, rem3) =>
            match skipWs rem3 with
            | ',' :: rem4 =>
              match readEntries fuel rem4 with
              | none => none
              | some entries => some ((k, v) :: entries)
            | '\x7d' :: rem4 =>
              match skipWs rem4 with
              | [] => some [(k, v)]
              | _ => none
            | _ => none
        | _ => none
    | _ => none

/-- `json.loads` restricted to the flat string-keyed objects that rendered
table options contain.

Modelled from the spec: `json.loads` is the Python standard library; per
spec §4.2 the brace segment "parse[s] its interior as a key-value map", so
only flat `{"k": v}` objects are read, with bare tokens (numbers,
booleans) kept as their literal text. -/
def jsonLoadsFlat (l : List Char) : Option (List (String × String)) :=
  match skipWs l with
  | '\x7b' :: rest =>
    match skipWs rest with
    | '\x7d' :: rem => (match skipWs rem with | [] => some [] | _ => none)
    | _ => readEntries (l.length + 1) rest
  | _ => none

/-- Python `str.split('=')` specialised to the single character the source
splits on (management.py line 334): split at *every* occurrence. -/
def splitEq : List Char → List (List Char)
  | [] => [[]]
  | c :: rest =>
    let r := splitEq rest
    if c = '=' then [] :: r
    else match r with
      | [] => [[c]]
      | h :: t => (c :: h) :: t

/-- Python `str.strip()`: drop leading and trailing whitespace. -/
def trimChars (l : List Char) : List Char :=
  ((l.dropWhile isWsChar).reverse.dropWhile isWsChar).reverse

/-- `str.strip()` at the string level. -/
def pyStrip (s : String) : String := String.mk (trimChars s.toList)

/-- Decoding failures of `_options_map_from_strings`: the `ValueError` of
unpacking `option.split('=')` into two names, and the `ValueError` that
`json.loads` raises on a malformed brace segment (both propagate,
spec §7 (d)). -/
inductive DecodeErr : Type where
  | unpackError (clause : String)
  | jsonError (clause : String)
deriving DecidableEq, Repr

/-- `_options_map_from_strings(option_strings)` (management.py lines
330-342): split each clause at `=`; when the value contains a brace, parse
the first-brace..last-brace segment (single quotes converted to double) as
a nested map, otherwise keep the trimmed value as an opaque scalar; store
under the trimmed name. -/
def _options_map_from_strings (acc : List (String × OptVal)) :
    List String → Except DecodeErr (List (String × OptVal))
  | [] => .ok acc
  | clause :: rest =>
    match splitEq clause.toList with
    | [name, value] =>
      if hasBrace value then
        match jsonLoadsFlat (replaceQuotes (sliceClip value)) with
        | none => .error (.jsonError clause)
        | some m =>
          _options_map_from_strings
            (aset acc (String.mk (trimChars name)) (.nested m)) rest
      else
        _options_map_from_strings
          (aset acc (String.mk (trimChars name)) (.scalar (String.mk (trimChars value)))) rest
    | _ => .error (.unpackError clause)

/-! ## Option diffing (`_update_options`, lines 345-388) -/

/-- The per-option comparison inside `_update_options` (lines 370-380):
against a scalar live value, Python `value != existing_value` (a nested
desired value is unequal to any string); against a nested live value, the
per-key loop `for k, v in value.items(): if existing_value[k] != v` with
the `KeyError` of a missing live key caught as "include" — and the
`AttributeError` of calling `.items()` on a scalar desired value not
caught at all. -/
def entryDiffB : OptVal → OptVal → Except SyncErr Bool
  | .scalar s, v => .ok (decide (v ≠ .scalar s))
  | .nested _, .scalar _ => .error .attrError
  | .nested l, .nested m =>
    .ok (m.any (fun kv =>
      match alookup l kv.1 with
      | none => true
      | some w => decide (w ≠ kv.2)))

/-- The `update_options` mapping built by `_update_options` (lines
364-380): walk the desired options in order; a name absent from the live
options raises `KeyError` naming it; otherwise the option is included iff
`entryDiffB` says the values differ. -/
def updateOptionsDiff : List (String × OptVal) → List (String × OptVal) →
    Except SyncErr (List (String × OptVal))
  | [], _ => .ok []
  | (n, v) :: rest, live =>
    match alookup live n with
    | none => .error (.unknownOption n)
    | some lv =>
      match entryDiffB lv v with
      | .error e => .error e
      | .ok b =>
        match updateOptionsDiff rest live with
        | .error e => .error e
        | .ok d => .ok (if b then (n, v) :: d else d)

/-- `_update_options(model)` (lines 345-388): look up the live table
(`_get_table_metadata`, KeyError when absent), compute the option diff
over the normalized maps, and when it is non-empty execute a single
`ALTER TABLE ... WITH` carrying only the changed options. -/
def _update_options (m : TableModel) (s : LiveKeyspace) :
    List Stmt × Except SyncErr LiveKeyspace :=
  match alookup s.tables m.raw_cf_name with
  | none => ([], .error (.tableMetaMissing m.raw_cf_name))
  | some t =>
    match updateOptionsDiff m.options t.options with
    | .error e => ([], .error e)
    | .ok [] => ([], .ok s)
    | .ok upd =>
      let stmt := Stmt.alterTableWith m.cf_name m.raw_cf_name upd
      match applyStmt s stmt with
      | .error e => ([stmt], .error (.exec e))
      | .ok s' => ([stmt], .ok s')

/-! ## Type synchronization (`_sync_type`, lines 225-265) -/

/-- The additive field pass of `_sync_type` (lines 252-255): for each
declared field whose `db_field_name` is not among the live field names
captured at line 250, execute `ALTER TYPE ... ADD`.  `defined` is that
captured list: it is *not* refreshed while the loop runs. -/
def alterTypeFieldsLoop (tq t : String) (defined : List String) :
    List UDTField → LiveKeyspace → List Stmt × Except SyncErr LiveKeyspace
  | [], s => ([], .ok s)
  | f :: rest, s =>
    if f.db_field_name ∈ defined then alterTypeFieldsLoop tq t defined rest s
    else
      match applyStmt s (Stmt.alterTypeAdd tq t f.db_field_name f.column_def) with
      | .error e => ([Stmt.alterTypeAdd tq t f.db_field_name f.column_def], .error (.exec e))
      | .ok s' =>
        (Stmt.alterTypeAdd tq t f.db_field_name f.column_def ::
            (alterTypeFieldsLoop tq t defined rest s').1,
          (alterTypeFieldsLoop tq t defined rest s').2)

/-- The non-recursive tail of `_sync_type` (lines 235-265): create the
type when its name is absent from the keyspace's live user types,
otherwise run the additive field pass.  The metadata refresh, the
`register_for_keyspace` calls, the field-count check (line 259) and the
symmetric-difference report (lines 263-265) execute no statements: they
refresh caches and log only. -/
def syncTypeOwn (ks t : String) (tm : UDTModelDef) (s : LiveKeyspace) :
    List Stmt × Except SyncErr LiveKeyspace :=
  match alookup s.user_types t with
  | none =>
    let stmt := Stmt.createType ks t (tm.fields.map (fun f => f.db_field_name))
      (tm.fields.map (fun f => f.column_def))
    match applyStmt s stmt with
    | .error e => ([stmt], .error (.exec e))
    | .ok s' => ([stmt], .ok s')
  | some ut =>
    alterTypeFieldsLoop (ks ++ "." ++ t) t ut.field_names tm.fields s

/-- The pending list `[u for u in udts if u not in syncd]` (management.py
lines 149, 231): materialized before its loop runs. -/
def pendingOf (S : List String) (refs : List String) : List String :=
  refs.filter (fun u => !(S.contains u))

/-- The control positions of `_sync_type`'s recursion: synchronizing one
type, walking its fields, or walking one field's pending UDT list. -/
inductive TJob : Type where
  | typ (t : String)
  | flds (fs : List UDTField)
  | pnd (us : List String)
deriving DecidableEq, Repr

/-- Result of a (partial) type-synchronization run: the executed
statements, the names `_sync_type` was invoked on in invocation order,
and on success the updated keyspace together with the final contents of
the visited set. -/
structure TRes : Type where
  stmts : List Stmt
  calls : List String
  res : Except SyncErr (LiveKeyspace × List String)
deriving Repr

/-- `_sync_type(ks_name, type_model, omit_subtypes)` (lines 225-265),
fuel-bounded.  The visited set is threaded exactly as the Python set
object is: `omit_subtypes or set()` gives the callee the *same* object
only when the passed set is non-empty (an empty set is falsy, so the
callee then mutates a fresh set the caller never sees); hence a caller
takes the callee's final set only when it passed a non-empty one.  Each
field's pending list `[u for u in udts if u not in syncd_sub_types]` is
materialized before its loop runs, and `syncd_sub_types.add(udt)` runs
after each recursive call. -/
def runType (env : UDTEnv) (ks : String) : Nat → TJob → List String → LiveKeyspace → TRes
  | 0, _, _, _ => ⟨[], [], .error .fuelExhausted⟩
  | fuel + 1, .typ t, omitS, s =>
    match alookup env t with
    | none => ⟨[], [t], .error (.missingUdt t)⟩
    | some tm =>
      let sub := runType env ks fuel (.flds tm.fields) omitS s
      match sub.res with
      | .error e => ⟨sub.stmts, t :: sub.calls, .error e⟩
      | .ok (s1, S1) =>
        let own := syncTypeOwn ks t tm s1
        match own.2 with
        | .error e => ⟨sub.stmts ++ own.1, t :: sub.calls, .error e⟩
        | .ok s2 => ⟨sub.stmts ++ own.1, t :: sub.calls, .ok (s2, S1)⟩
  | _ + 1, .flds [], S, s => ⟨[], [], .ok (s, S)⟩
  | fuel + 1, .flds (f :: rest), S, s =>
    let a := runType env ks fuel (.pnd (pendingOf S f.resolved_udts)) S s
    match a.res with
    | .error e => ⟨a.stmts, a.calls, .error e⟩
    | .ok (s1, S1) =>
      let b := runType env ks fuel (.flds rest) S1 s1
      ⟨a.stmts ++ b.stmts, a.calls ++ b.calls, b.res⟩
  | _ + 1, .pnd [], S, s => ⟨[], [], .ok (s, S)⟩
  | fuel + 1, .pnd (u :: rest), S, s =>
    let a := runType env ks fuel (.typ u) S s
    match a.res with
    | .error e => ⟨a.stmts, a.calls, .error e⟩
    | .ok (s1, S1) =>
      let S2 := if S.isEmpty then S else S1
      let S3 := insertNew S2 u
      let b := runType env ks fuel (.pnd rest) S3 s1
      ⟨a.stmts ++ b.stmts, a.calls ++ b.calls, b.res⟩

/-! ## `sync_table` (lines 110-201) -/

/-- The inner loop of `sync_table`'s type pass (lines 149-150): invoke
`_sync_type` on each pending name.  `sync_table` never adds the name to
`syncd_types` afterwards, and (as in `runType`) the callee's set contents
reach this set only when the passed set was non-empty. -/
def tablePend (env : UDTEnv) (ks : String) (fuel : Nat) :
    List String → List String → LiveKeyspace → TRes
  | [], S, s => ⟨[], [], .ok (s, S)⟩
  | u :: rest, S, s =>
    let a := runType env ks fuel (.typ u) S s
    match a.res with
    | .error e => ⟨a.stmts, a.calls, .error e⟩
    | .ok (s1, S1) =>
      let S2 := if S.isEmpty then S else S1
      let b := tablePend env ks fuel rest S2 s1
      ⟨a.stmts ++ b.stmts, a.calls ++ b.calls, b.res⟩

/-- `sync_table`'s type pass (lines 145-150): for each column, resolve its
reachable UDTs, filter by the `syncd_types` set, and synchronize each
pending type. -/
def typePhase (env : UDTEnv) (ks : String) (fuel : Nat) :
    List ModelColumn → List String → LiveKeyspace → TRes
  | [], S, s => ⟨[], [], .ok (s, S)⟩
  | col :: rest, S, s =>
    let a := tablePend env ks fuel (pendingOf S col.resolved_udts) S s
    match a.res with
    | .error e => ⟨a.stmts, a.calls, .error e⟩
    | .ok (s1, S1) =>
      let b := typePhase env ks fuel rest S1 s1
      ⟨a.stmts ++ b.stmts, a.calls ++ b.calls, b.res⟩

/-- `_get_non_pk_field_names(table_meta)` (lines 314-318): live column
names not among the live primary-key column names. -/
def _get_non_pk_field_names (t : LiveTable) : List String :=
  t.columns.filter (fun n => !(t.primary_key.contains n))

/-- The per-column reconciliation loop of `sync_table`'s existing-table
branch (lines 170-179): skip primary-key and partition-key columns, skip
columns whose `db_field_name` is in the pre-computed live non-key field
list, and `ALTER TABLE ... add` the rest.  The `model_fields` set and the
symmetric-difference report (lines 181-183) only log. -/
def alterAddLoop (cf raw : String) (field_names : List String) :
    List ModelColumn → LiveKeyspace → List Stmt × Except SyncErr LiveKeyspace
  | [], s => ([], .ok s)
  | col :: rest, s =>
    if col.primary_key || col.partition_key then
      alterAddLoop cf raw field_names rest s
    else if field_names.contains col.db_field_name then
      alterAddLoop cf raw field_names rest s
    else
      match applyStmt s (Stmt.alterTableAdd cf raw col.db_field_name col.column_def) with
      | .error e =>
        ([Stmt.alterTableAdd cf raw col.db_field_name col.column_def], .error (.exec e))
      | .ok s' =>
        (Stmt.alterTableAdd cf raw col.db_field_name col.column_def ::
            (alterAddLoop cf raw field_names rest s').1,
          (alterAddLoop cf raw field_names rest s').2)

/-- The deterministic index name `'index_{0}_{1}'.format(raw_cf_name,
column.db_field_name)` (line 193). -/
def indexName (raw db : String) : String := "index_" ++ raw ++ "_" ++ db

/-- The index loop of `sync_table` (lines 192-201) over the declared
indexed columns: skip when the deterministic name is already among the
index names of the table metadata snapshot captured at line 187, else
`CREATE INDEX`. -/
def indexLoop (cf raw : String) (snapshot : List String) :
    List ModelColumn → LiveKeyspace → List Stmt × Except SyncErr LiveKeyspace
  | [], s => ([], .ok s)
  | col :: rest, s =>
    if snapshot.contains (indexName raw col.db_field_name) then
      indexLoop cf raw snapshot rest s
    else
      match applyStmt s (Stmt.createIndex (indexName raw col.db_field_name) cf raw
          col.db_field_name) with
      | .error e =>
        ([Stmt.createIndex (indexName raw col.db_field_name) cf raw col.db_field_name],
          .error (.exec e))
      | .ok s' =>
        (Stmt.createIndex (indexName raw col.db_field_name) cf raw col.db_field_name ::
            (indexLoop cf raw snapshot rest s').1,
          (indexLoop cf raw snapshot rest s').2)

/-- Lines 187-201: re-read the table metadata (`KeyError` when the table
is still absent), snapshot its index names, and run the index loop over
the indexed model columns. -/
def indexPhase (m : TableModel) (s : LiveKeyspace) :
    List Stmt × Except SyncErr LiveKeyspace :=
  match alookup s.tables m.raw_cf_name with
  | none => ([], .error (.tableMetaMissing m.raw_cf_name))
  | some t =>
    indexLoop m.cf_name m.raw_cf_name t.indexes (m.columns.filter (fun c => c.index)) s

/-- Does `needle` occur at the head of `hay`? -/
def leadMatch : List Char → List Char → Bool
  | [], _ => true
  | _ :: _, [] => false
  | a :: as, b :: bs => a = b && leadMatch as bs

/-- Does `needle` occur contiguously anywhere in `hay`? -/
def containsSeq (needle : List Char) : List Char → Bool
  | [] => needle.isEmpty
  | c :: rest => leadMatch needle (c :: rest) || containsSeq needle rest

/-- Python `needle in hay` on strings. -/
def strContains (hay needle : String) : Bool := containsSeq needle.toList hay.toList

/-- The message fragment `sync_table` pattern-matches at line 162. -/
def cfExistsMsg : String := "Cannot add already existing column family"

/-- The create attempt of `sync_table`'s absent-table branch (lines
153-163): execute the CREATE TABLE; on failure, swallow the error iff its
message contains the "already exists" fragment (the state is then left as
it was), otherwise re-raise.  `createFailure` injects a failure reported
by the execute collaborator (spec §6): the stale-metadata race in which
the cluster already has the table although the cached metadata did not
show it. -/
def createStep (m : TableModel) (createFailure : Option ExecErr) (s : LiveKeyspace) :
    List Stmt × Except SyncErr LiveKeyspace :=
  match (match createFailure with
         | some e => Except.error e
         | none => applyStmt s (Stmt.createTable m)) with
  | .ok s' => ([Stmt.createTable m], .ok s')
  | .error e =>
    if strContains e.message cfExistsMsg then ([Stmt.createTable m], .ok s)
    else ([Stmt.createTable m], .error (.exec e))

/-- The overall result of one `sync_table` call: executed statements, the
`_sync_type` invocation trace, and the outcome. -/
structure SyncOut : Type where
  stmts : List Stmt
  typeCalls : List String
  outcome : Except SyncErr LiveKeyspace
deriving Repr

/-- `sync_table(model)` (lines 110-201): reject abstract models; run the
type pass with a fresh `syncd_types` set; create the table when its raw
name is absent from the live tables (swallowing only the "already exists"
failure), else reconcile columns additively and then options; finally
reconcile the secondary indexes against the re-read table metadata.
`_allow_schema_modification` (lines 416-422) always returns `True` (it
only warns), so it is not modelled as a branch. -/
def sync_table (env : UDTEnv) (fuel : Nat) (m : TableModel)
    (createFailure : Option ExecErr) (s : LiveKeyspace) : SyncOut :=
  if m.abstract then ⟨[], [], .error .abstractModel⟩
  else
    let tp := typePhase env m.ks_name fuel m.columns [] s
    match tp.res with
    | .error e => ⟨tp.stmts, tp.calls, .error e⟩
    | .ok (s1, _) =>
      match alookup s1.tables m.raw_cf_name with
      | none =>
        let cr := createStep m createFailure s1
        match cr.2 with
        | .error e => ⟨tp.stmts ++ cr.1, tp.calls, .error e⟩
        | .ok s2 =>
          let ix := indexPhase m s2
          ⟨tp.stmts ++ cr.1 ++ ix.1, tp.calls, ix.2⟩
      | some t =>
        let field_names := _get_non_pk_field_names t
        let ad := alterAddLoop m.cf_name m.raw_cf_name field_names m.columns s1
        match ad.2 with
        | .error e => ⟨tp.stmts ++ ad.1, tp.calls, .error e⟩
        | .ok s2 =>
          let uo := _update_options m s2
          match uo.2 with
          | .error e => ⟨tp.stmts ++ ad.1 ++ uo.1, tp.calls, .error e⟩
          | .ok s3 =>
            let ix := indexPhase m s3
            ⟨tp.stmts ++ ad.1 ++ uo.1 ++ ix.1, tp.calls, ix.2⟩

/-! ## Lemmas about association lists -/

theorem alookup_aset_self {α : Type} (l : List (String × α)) (n : String) (v : α) :
    alookup (aset l n v) n = some v := by
  induction l with
  | nil => simp [aset, alookup]
  | cons kv rest ih =>
    obtain ⟨k, w⟩ := kv
    by_cases h : k = n
    · simp [aset, alookup, h]
    · simp [aset, alookup, h, ih]

theorem alookup_aset_other {α : Type} (l : List (String × α)) (n m : String) (v : α)
    (h : m ≠ n) : alookup (aset l n v) m = alookup l m := by
  have hnm : ¬ (n = m) := fun hh => h hh.symm
  induction l with
  | nil => simp [aset, alookup, hnm]
  | cons kv rest ih =>
    obtain ⟨k, w⟩ := kv
    by_cases hk : k = n
    · subst hk
      simp [aset, alookup, hnm]
    · by_cases hm : k = m
      · simp [aset, alookup, hk, hm, hnm, h]
      · simp [aset, alookup, hk, hm, ih]

theorem alookup_mem {α : Type} {l : List (String × α)} {n : String} {v : α}
    (h : alookup l n = some v) : (n, v) ∈ l := by
  induction l with
  | nil => simp [alookup] at h
  | cons kv rest ih =>
    obtain ⟨k, w⟩ := kv
    by_cases hk : k = n
    · simp only [alookup, if_pos hk] at h
      injection h with hv
      subst hk; subst hv
      exact List.mem_cons_self _ _
    · simp only [alookup, if_neg hk] at h
      exact List.mem_cons_of_mem _ (ih h)

theorem mem_alookup_of_nodup {α : Type} {l : List (String × α)} {n : String} {v : α}
    (hnd : (l.map Prod.fst).Nodup) (h : (n, v) ∈ l) : alookup l n = some v := by
  induction l with
  | nil => simp at h
  | cons kv rest ih =>
    obtain ⟨k, w⟩ := kv
    simp only [List.map_cons, List.nodup_cons] at hnd
    rcases List.mem_cons.1 h with h1 | h1
    · injection h1 with h2 h3
      subst h2; subst h3
      simp [alookup]
    · have hk : k ≠ n := by
        rintro rfl
        exact hnd.1 (List.mem_map.2 ⟨(k, v), h1, rfl⟩)
      simp [alookup, hk, ih hnd.2 h1]

theorem alookup_isSome_of_mem {α : Type} {l : List (String × α)} {n : String} {v : α}
    (h : (n, v) ∈ l) : (alookup l n).isSome := by
  induction l with
  | nil => simp at h
  | cons kv rest ih =>
    obtain ⟨k, w⟩ := kv
    by_cases hk : k = n
    · simp [alookup, hk]
    · rcases List.mem_cons.1 h with h1 | h1
      · injection h1 with h2 h3
        exact absurd h2.symm hk
      · simp [alookup, hk, ih h1]

/-! ## The spec-side option-diff condition (for claim C4) -/

/-- The spec's per-option inclusion condition (spec §4.2 `diff`): against a
scalar live value, include iff the desired value differs; against a nested
live value, include iff some desired key is missing from the live nested
map or maps to a different value.  This definition follows the spec's
words and is compared against the source-derived `updateOptionsDiff`. -/
def specOptionDiffCond : OptVal → OptVal → Bool
  | .scalar s, v => decide (v ≠ .scalar s)
  | .nested _, .scalar _ => false
  | .nested l, .nested m =>
    m.any (fun kv => decide (alookup l kv.1 ≠ some kv.2))

theorem entryDiffB_eq_spec {lv v : OptVal} {b : Bool}
    (h : entryDiffB lv v = .ok b) : b = specOptionDiffCond lv v := by
  cases lv with
  | scalar s =>
    simp only [entryDiffB, Except.ok.injEq] at h
    simp [specOptionDiffCond, ← h]
  | nested l =>
    cases v with
    | scalar t => simp [entryDiffB] at h
    | nested m =>
      simp only [entryDiffB, Except.ok.injEq] at h
      subst h
      simp only [specOptionDiffCond]
      congr 1
      funext kv
      cases hl : alookup l kv.1 with
      | none => simp [hl]
      | some w => simp [hl, decide_eq_decide]

theorem updateOptionsDiff_subset {desired live d : List (String × OptVal)}
    (h : updateOptionsDiff desired live = .ok d) : ∀ x ∈ d, x ∈ desired := by
  induction desired generalizing d with
  | nil =>
    simp only [updateOptionsDiff, Except.ok.injEq] at h
    subst h; simp
  | cons nv rest ih =>
    obtain ⟨n, v⟩ := nv
    simp only [updateOptionsDiff] at h
    cases hlv : alookup live n with
    | none => simp [hlv] at h
    | some lv =>
      simp only [hlv] at h
      cases hb : entryDiffB lv v with
      | error e => simp [hb] at h
      | ok b =>
        simp only [hb] at h
        cases hd : updateOptionsDiff rest live with
        | error e => simp [hd] at h
        | ok d' =>
          simp only [hd, Except.ok.injEq] at h
          subst h
          intro x hx
          cases b with
          | true =>
            rcases List.mem_cons.1 hx with h1 | h1
            · subst h1; exact List.mem_cons_self _ _
            · exact List.mem_cons_of_mem _ (ih hd x h1)
          | false => exact List.mem_cons_of_mem _ (ih hd x hx)

theorem updateOptionsDiff_mem_iff {desired live d : List (String × OptVal)}
    (h : updateOptionsDiff desired live = .ok d)
    (hnd : (desired.map Prod.fst).Nodup) :
    ∀ n v lv, (n, v) ∈ desired → alookup live n = some lv →
      ((n, v) ∈ d ↔ specOptionDiffCond lv v = true) := by
  induction desired generalizing d with
  | nil => intro n v lv hm; simp at hm
  | cons nv rest ih =>
    obtain ⟨n0, v0⟩ := nv
    simp only [updateOptionsDiff] at h
    cases hlv0 : alookup live n0 with
    | none => simp [hlv0] at h
    | some lv0 =>
      simp only [hlv0] at h
      cases hb : entryDiffB lv0 v0 with
      | error e => simp [hb] at h
      | ok b =>
        simp only [hb] at h
        cases hd : updateOptionsDiff rest live with
        | error e => simp [hd] at h
        | ok d' =>
          simp only [hd, Except.ok.injEq] at h
          subst h
          simp only [List.map_cons, List.nodup_cons] at hnd
          intro n v lv hm hlv
          rcases List.mem_cons.1 hm with h1 | h1
          · injection h1 with h2 h3
            subst h2; subst h3
            rw [hlv0] at hlv
            injection hlv with h4
            subst h4
            have hb' := entryDiffB_eq_spec hb
            have hnotin : (n, v) ∉ d' := fun hin =>
              hnd.1 (List.mem_map.2 ⟨(n, v), updateOptionsDiff_subset hd _ hin, rfl⟩)
            cases b with
            | true =>
              constructor
              · intro _; exact hb'.symm
              · intro _; exact List.mem_cons_self _ _
            | false =>
              constructor
              · intro hin; exact absurd hin hnotin
              · intro hs; exact (Bool.false_ne_true (hb'.trans hs)).elim
          · have hne : (n, v) ≠ (n0, v0) := by
              intro hh
              injection hh with h2 h3
              subst h2
              exact hnd.1 (List.mem_map.2 ⟨(n, v0), h3 ▸ h1, rfl⟩)
            have hrec := ih hd hnd.2 n v lv h1 hlv
            cases b with
            | true => simpa [List.mem_cons, hne] using hrec
            | false => exact hrec

theorem updateOptionsDiff_unknown (live : List (String × OptVal)) (n : String) (v : OptVal)
    (pre post : List (String × OptVal))
    (hpre : ∀ p ∈ pre, ∃ lv b, alookup live p.1 = some lv ∧ entryDiffB lv p.2 = Except.ok b)
    (habs : alookup live n = none) :
    updateOptionsDiff (pre ++ (n, v) :: post) live = .error (.unknownOption n) := by
  induction pre with
  | nil => simp [updateOptionsDiff, habs]
  | cons p rest ih =>
    obtain ⟨lv, b, hlv, hb⟩ := hpre p (List.mem_cons_self _ _)
    obtain ⟨p1, p2⟩ := p
    simp only [List.cons_append, updateOptionsDiff, hlv, hb, List.append_eq,
      ih (fun q hq => hpre q (List.mem_cons_of_mem _ hq))]

/-- C4: for every normalized desired-options map and live-options map on
which the diff computation succeeds (with the desired names duplicate-free
as a Python dict guarantees), the diff contains a desired option whose
live value is a scalar iff the desired value differs from the live value,
and contains one whose live value is a nested map iff some key of the
desired nested map is missing from the live nested map or maps to a
different value (`specOptionDiffCond`); keys present only in the live
nested map never by themselves cause inclusion. -/
theorem C4_option_diff_membership
    (desired live d : List (String × OptVal))
    (h : updateOptionsDiff desired live = .ok d)
    (hnd : (desired.map Prod.fst).Nodup)
    (n : String) (v lv : OptVal)
    (hmem : (n, v) ∈ desired) (hlive : alookup live n = some lv) :
    ((n, v) ∈ d ↔ specOptionDiffCond lv v = true) :=
  updateOptionsDiff_mem_iff h hnd n v lv hmem hlive

theorem C4_option_diff_membership_witness :
    (("compaction", OptVal.nested [("class", "Leveled")]) ∈
        [("compaction", OptVal.nested [("class", "Leveled")])]) ↔
      specOptionDiffCond (OptVal.nested [("class", "SizeTiered")])
        (OptVal.nested [("class", "Leveled")]) = true :=
  C4_option_diff_membership
    [("compaction", OptVal.nested [("class", "Leveled")])]
    [("compaction", OptVal.nested [("class", "SizeTiered")])]
    [("compaction", OptVal.nested [("class", "Leveled")])]
    rfl (by decide) "compaction" (OptVal.nested [("class", "Leveled")])
    (OptVal.nested [("class", "SizeTiered")]) (by decide) rfl

/-- C10: when some desired option is a scalar while its live value is a
nested map, the per-key comparison of `_update_options` calls `.items()`
on the scalar and raises an unhandled error (only the missing-key
`KeyError` is caught), so the diff computation errors instead of
returning a diff: it is not total over shape-mismatched option values. -/
theorem C10_option_diff_shape_mismatch
    (desired live : List (String × OptVal)) (n str : String) (l : List (String × String))
    (hmem : (n, OptVal.scalar str) ∈ desired)
    (hlive : alookup live n = some (OptVal.nested l)) :
    ∃ e, updateOptionsDiff desired live = Except.error e := by
  induction desired with
  | nil => simp at hmem
  | cons nv rest ih =>
    obtain ⟨m0, w0⟩ := nv
    simp only [updateOptionsDiff]
    cases hl0 : alookup live m0 with
    | none => exact ⟨.unknownOption m0, rfl⟩
    | some lv0 =>
      cases hb : entryDiffB lv0 w0 with
      | error e => exact ⟨e, by simp [hb]⟩
      | ok b =>
        rcases List.mem_cons.1 hmem with h1 | h1
        · injection h1 with h2 h3
          subst h2
          rw [hlive] at hl0
          injection hl0 with h4
          rw [← h3, ← h4] at hb
          simp [entryDiffB] at hb
        · obtain ⟨e, he⟩ := ih h1
          exact ⟨e, by simp [hb, he]⟩

theorem C10_option_diff_shape_mismatch_witness :
    ∃ e, updateOptionsDiff [("compaction", OptVal.scalar "x")]
        [("compaction", OptVal.nested [("class", "L")])] = Except.error e :=
  C10_option_diff_shape_mismatch
    [("compaction", OptVal.scalar "x")]
    [("compaction", OptVal.nested [("class", "L")])]
    "compaction" "x" [("class", "L")] (by decide) rfl

/-- C6: when a desired option name is absent from the live table's
normalized option map (and the desired entries checked before it compare
without a shape error), `_update_options` raises the `KeyError` naming
that option — a configuration error, not a transient failure — and
executes no `ALTER TABLE ... WITH` statement: the statement list is empty
and the state is untouched. -/
theorem C6_unknown_option_errors (m : TableModel) (s : LiveKeyspace) (t : LiveTable)
    (ht : alookup s.tables m.raw_cf_name = some t)
    (pre post : List (String × OptVal)) (n : String) (v : OptVal)
    (hopts : m.options = pre ++ (n, v) :: post)
    (hpre : ∀ p ∈ pre, ∃ lv b, alookup t.options p.1 = some lv ∧ entryDiffB lv p.2 = Except.ok b)
    (habs : alookup t.options n = none) :
    _update_options m s = ([], Except.error (SyncErr.unknownOption n)) := by
  simp only [_update_options, ht, hopts,
    updateOptionsDiff_unknown t.options n v pre post hpre habs]

theorem C6_unknown_option_errors_witness :
    _update_options
      ({ abstract := false, cf_name := "ks.t", raw_cf_name := "t", ks_name := "ks",
         columns := [], options := [("foo", OptVal.scalar "bar")] })
      ⟨[("t", ⟨[], [], [], []⟩)], []⟩
      = ([], Except.error (SyncErr.unknownOption "foo")) :=
  C6_unknown_option_errors
    ({ abstract := false, cf_name := "ks.t", raw_cf_name := "t", ks_name := "ks",
       columns := [], options := [("foo", OptVal.scalar "bar")] })
    ⟨[("t", ⟨[], [], [], []⟩)], []⟩ ⟨[], [], [], []⟩ rfl [] [] "foo" (OptVal.scalar "bar")
    rfl (by simp) rfl

/-! ## Claim C8: brace detection in option decoding -/

/-- C8 counterexample: the claim says a value is parsed as a nested map
iff a *leading* brace is detected; but `_options_map_from_strings` tests
`value.find('\x7b') >= 0`, a brace *anywhere*.  On the clause
`a=b\x7b"c": 1\x7d` the value does not start with a brace (even after
trimming), yet the decode returns a nested map. -/
theorem C8_leading_brace_counterexample :
    _options_map_from_strings [] ["a=b\x7b\"c\": 1\x7d"] =
        Except.ok [("a", OptVal.nested [("c", "1")])] ∧
      (trimChars "b\x7b\"c\": 1\x7d".toList).head? ≠ some '\x7b' := by
  exact ⟨rfl, by decide⟩

/-- C8 amended: in option decoding, for each `name=value` clause the value
is parsed as a nested key→value map iff it contains a brace *anywhere*
(Python `value.find('\x7b') >= 0`): the segment from the first opening
brace through the last closing brace, with single-quoted keys/values
converted to a JSON-compatible form, is parsed as the nested map;
otherwise the trimmed value is kept as an opaque scalar string keyed by
the trimmed name. -/
theorem C8_brace_detection (s : String) (name value : List Char)
    (hsplit : splitEq s.toList = [name, value]) :
    (hasBrace value = true →
      ∀ m, jsonLoadsFlat (replaceQuotes (sliceClip value)) = some m →
        _options_map_from_strings [] [s] =
          Except.ok [(String.mk (trimChars name), OptVal.nested m)]) ∧
    (hasBrace value = false →
      _options_map_from_strings [] [s] =
        Except.ok [(String.mk (trimChars name), OptVal.scalar (String.mk (trimChars value)))]) := by
  simp only [String.toList] at hsplit
  constructor
  · intro hb m hm
    simp [_options_map_from_strings, hsplit, hb, hm, aset]
  · intro hb
    simp [_options_map_from_strings, hsplit, hb, aset]

theorem C8_brace_detection_witness :
    _options_map_from_strings [] ["gc_grace_seconds = 864000"] =
      Except.ok [("gc_grace_seconds", OptVal.scalar "864000")] :=
  (C8_brace_detection "gc_grace_seconds = 864000"
    "gc_grace_seconds ".toList " 864000".toList rfl).2 rfl

/-! ## Claim C9: the type field-count check -/

/-- C9 counterexample: with live type `T` having fields `[a]` and declared
fields `[a, b]`, the additive pass executes `ALTER TYPE ks.T ADD b`, after
which the live field count (2) equals the declared field count (2) — yet
a mutating statement was issued, so equality of the counts after the pass
does not make the synchronization a no-op. -/
theorem C9_count_check_counterexample :
    (syncTypeOwn "ks" "T" ⟨[⟨"a", "a atype", []⟩, ⟨"b", "b btype", []⟩]⟩
        ⟨[], [("T", ⟨["a"]⟩)]⟩).1 =
      [Stmt.alterTypeAdd "ks.T" "T" "b" "b btype"] ∧
    (syncTypeOwn "ks" "T" ⟨[⟨"a", "a atype", []⟩, ⟨"b", "b btype", []⟩]⟩
        ⟨[], [("T", ⟨["a"]⟩)]⟩).2 =
      Except.ok ⟨[], [("T", ⟨["a", "b"]⟩)]⟩ ∧
    ([(⟨"a", "a atype", []⟩ : UDTField), ⟨"b", "b btype", []⟩]).length = 2 ∧
    (["a", "b"] : List String).length = 2 := by
  exact ⟨rfl, rfl, rfl, rfl⟩

theorem alterTypeFieldsLoop_nil_iff (tq t : String) (defined : List String)
    (fields : List UDTField) (s : LiveKeyspace) :
    (alterTypeFieldsLoop tq t defined fields s).1 = [] ↔
      ∀ f ∈ fields, f.db_field_name ∈ defined := by
  induction fields generalizing s with
  | nil => simp [alterTypeFieldsLoop]
  | cons f rest ih =>
    by_cases hf : f.db_field_name ∈ defined
    · simp only [alterTypeFieldsLoop, if_pos hf]
      rw [ih s]
      constructor
      · intro h g hg
        rcases List.mem_cons.1 hg with h1 | h1
        · subst h1; exact hf
        · exact h g h1
      · intro h g hg
        exact h g (List.mem_cons_of_mem _ hg)
    · simp only [alterTypeFieldsLoop, if_neg hf]
      constructor
      · intro h
        exfalso
        cases happ : applyStmt s (Stmt.alterTypeAdd tq t f.db_field_name f.column_def) with
        | error e => rw [happ] at h; simp at h
        | ok s' => rw [happ] at h; simp at h
      · intro h
        exact absurd (h f (List.mem_cons_self _ _)) hf

/-- C9 corrected: when the type already exists in the live keyspace, the
exists-branch of `_sync_type` issues no mutating statement iff every
declared field name is already among the live type's field names; the
field-count equality test at line 259 compares the declared count against
the *pre-pass* live field list and only controls logging, so count
equality after the pass does not imply a no-op (see the counterexample). -/
theorem C9_type_noop_iff_fields_present (ks t : String) (tm : UDTModelDef)
    (s : LiveKeyspace) (ut : ULiveType)
    (hlive : alookup s.user_types t = some ut) :
    ((syncTypeOwn ks t tm s).1 = [] ↔
      ∀ f ∈ tm.fields, f.db_field_name ∈ ut.field_names) := by
  simp only [syncTypeOwn, hlive]
  exact alterTypeFieldsLoop_nil_iff (ks ++ "." ++ t) t ut.field_names tm.fields s

theorem C9_type_noop_iff_fields_present_witness :
    ((syncTypeOwn "ks" "T" ⟨[⟨"a", "a atype", []⟩]⟩ ⟨[], [("T", ⟨["a"]⟩)]⟩).1 = [] ↔
      ∀ f ∈ ([⟨"a", "a atype", []⟩] : List UDTField), f.db_field_name ∈ (⟨["a"]⟩ : ULiveType).field_names) :=
  C9_type_noop_iff_fields_present "ks" "T" ⟨[⟨"a", "a atype", []⟩]⟩
    ⟨[], [("T", ⟨["a"]⟩)]⟩ ⟨["a"]⟩ rfl

/-! ## Claim C2: the duplicate type-synchronization bug -/

/-- The declared-type environment of the C2 failing input: type `A` has a
field of type `B`; `B` has a plain field. -/
def c2Env : UDTEnv :=
  [("A", ⟨[⟨"bf", "bf btype", ["B"]⟩]⟩),
   ("B", ⟨[⟨"x", "x text", []⟩]⟩)]

/-- The C2 failing input: a non-abstract table with a single column whose
type reaches `B` then `A` (post-order resolver output). -/
def c2Model : TableModel :=
  { abstract := false, cf_name := "ks.t", raw_cf_name := "t", ks_name := "ks",
    columns := [{ name := "ca", db_field_name := "ca", primary_key := false,
                  partition_key := false, clustering_order := none, index := false,
                  column_def := "ca ftype", resolved_udts := ["B", "A"] }],
    options := [] }

/-- C2 (evaluation at the failing input): synchronizing a table with a
single column of type `A`, where `A` contains a field of type `B`,
invokes `_sync_type` on `B` twice — once from `sync_table`'s top-level
loop and once while synchronizing `A` — because `sync_table` never adds
the processed type to `syncd_types`, and `_sync_type` replaces the empty
`omit_subtypes` it received with a fresh set (`omit_subtypes or set()`:
an empty Python set is falsy), so the claimed cross-column shared
visited-set never takes effect.  The mutating statements still create
each type exactly once, child `B` before parent `A`. -/
theorem C2_duplicate_type_invocations :
    (sync_table c2Env 9 c2Model none ⟨[], []⟩).typeCalls = ["B", "A", "B"] ∧
    (["B", "A", "B"].count "B") = 2 ∧
    (sync_table c2Env 9 c2Model none ⟨[], []⟩).stmts =
      [Stmt.createType "ks" "B" ["x"] ["x text"],
       Stmt.createType "ks" "A" ["bf"] ["bf btype"],
       Stmt.createTable c2Model] := by
  exact ⟨rfl, rfl, rfl⟩

/-! ## Shape and preservation invariants of the type phase -/

/-- Is the statement one of the two `_sync_type` statements? -/
def isTypeStmt : Stmt → Bool
  | .createType _ _ _ _ => true
  | .alterTypeAdd _ _ _ _ => true
  | _ => false

/-- `s2` extends `s` on user types: every live type survives with at
least its old field names. -/
def TypeExt (s s2 : LiveKeyspace) : Prop :=
  ∀ n ut, alookup s.user_types n = some ut →
    ∃ ut2, alookup s2.user_types n = some ut2 ∧
      ∀ f ∈ ut.field_names, f ∈ ut2.field_names

theorem TypeExt.refl (s : LiveKeyspace) : TypeExt s s :=
  fun n ut h => ⟨ut, h, fun f hf => hf⟩

theorem TypeExt.trans {s1 s2 s3 : LiveKeyspace} (h12 : TypeExt s1 s2)
    (h23 : TypeExt s2 s3) : TypeExt s1 s3 := by
  intro n ut h
  obtain ⟨ut2, h2, hsub2⟩ := h12 n ut h
  obtain ⟨ut3, h3, hsub3⟩ := h23 n ut2 h2
  exact ⟨ut3, h3, fun f hf => hsub3 f (hsub2 f hf)⟩

theorem applyStmt_createType_inv {s s' : LiveKeyspace} {ks t : String}
    {fdbs fdefs : List String}
    (h : applyStmt s (.createType ks t fdbs fdefs) = .ok s') :
    s'.tables = s.tables ∧ TypeExt s s' ∧
      alookup s'.user_types t = some ⟨fdbs⟩ := by
  simp only [applyStmt] at h
  by_cases hex : (alookup s.user_types t).isSome
  · simp [hex] at h
  · simp only [hex, Bool.false_eq_true, if_false] at h
    by_cases hnd : !nodupB fdbs
    · simp [hnd] at h
    · simp only [hnd, Bool.false_eq_true, if_false, Except.ok.injEq] at h
      subst h
      refine ⟨rfl, ?_, by simp [alookup_aset_self]⟩
      intro n ut hn
      have hne : t ≠ n := by
        rintro rfl
        rw [hn] at hex
        simp at hex
      exact ⟨ut, by simp [alookup_aset_other _ _ _ _ (fun hh => hne hh.symm), hn],
        fun f hf => hf⟩

theorem applyStmt_alterTypeAdd_inv {s s' : LiveKeyspace} {tq t db cd : String}
    (h : applyStmt s (.alterTypeAdd tq t db cd) = .ok s') :
    s'.tables = s.tables ∧ TypeExt s s' := by
  simp only [applyStmt] at h
  cases hl : alookup s.user_types t with
  | none => rw [hl] at h; simp at h
  | some ut =>
    rw [hl] at h
    by_cases hdb : db ∈ ut.field_names
    · simp [hdb] at h
    · simp only [hdb, if_false, if_neg hdb, Except.ok.injEq] at h
      subst h
      refine ⟨rfl, ?_⟩
      intro n ut0 hn
      by_cases hne : t = n
      · subst hne
        rw [hl] at hn
        injection hn with hn
        subst hn
        refine ⟨⟨ut.field_names ++ [db]⟩, by simp [alookup_aset_self], ?_⟩
        intro f hf
        exact List.mem_append_left _ hf
      · exact ⟨ut0, by
          simpa [alookup_aset_other _ _ _ _ (fun hh => hne hh.symm)] using hn,
          fun f hf => hf⟩

theorem alterTypeFieldsLoop_inv (tq t : String) (defined : List String) :
    ∀ (fields : List UDTField) (s : LiveKeyspace),
      (∀ st ∈ (alterTypeFieldsLoop tq t defined fields s).1, isTypeStmt st = true) ∧
      (∀ s', (alterTypeFieldsLoop tq t defined fields s).2 = .ok s' →
        s'.tables = s.tables ∧ TypeExt s s') := by
  intro fields
  induction fields with
  | nil =>
    intro s
    refine ⟨by simp [alterTypeFieldsLoop], ?_⟩
    intro s' h
    simp only [alterTypeFieldsLoop, Except.ok.injEq] at h
    subst h
    exact ⟨rfl, TypeExt.refl s⟩
  | cons f rest ih =>
    intro s
    by_cases hf : f.db_field_name ∈ defined
    · simpa only [alterTypeFieldsLoop, if_pos hf] using ih s
    · simp only [alterTypeFieldsLoop, if_neg hf]
      cases happ : applyStmt s (Stmt.alterTypeAdd tq t f.db_field_name f.column_def) with
      | error e =>
        refine ⟨?_, ?_⟩
        · intro st hst
          simp only [List.mem_singleton] at hst
          subst hst
          rfl
        · intro s' h; simp at h
      | ok s0 =>
        obtain ⟨ht0, hext0⟩ := applyStmt_alterTypeAdd_inv happ
        refine ⟨?_, ?_⟩
        · intro st hst
          rcases List.mem_cons.1 hst with h1 | h1
          · subst h1; rfl
          · exact (ih s0).1 st h1
        · intro s' h
          obtain ⟨ht1, hext1⟩ := (ih s0).2 s' h
          exact ⟨ht1.trans ht0, hext0.trans hext1⟩

theorem syncTypeOwn_inv (ks t : String) (tm : UDTModelDef) (s : LiveKeyspace) :
    (∀ st ∈ (syncTypeOwn ks t tm s).1, isTypeStmt st = true) ∧
    (∀ s', (syncTypeOwn ks t tm s).2 = .ok s' → s'.tables = s.tables ∧ TypeExt s s') := by
  simp only [syncTypeOwn]
  cases hl : alookup s.user_types t with
  | none =>
    cases happ : applyStmt s (Stmt.createType ks t (tm.fields.map (fun f => f.db_field_name))
        (tm.fields.map (fun f => f.column_def))) with
    | error e =>
      refine ⟨?_, ?_⟩
      · intro st hst
        simp only [List.mem_singleton] at hst
        subst hst; rfl
      · intro s' h; simp at h
    | ok s0 =>
      obtain ⟨ht0, hext0, _⟩ := applyStmt_createType_inv happ
      refine ⟨?_, ?_⟩
      · intro st hst
        simp only [List.mem_singleton] at hst
        subst hst; rfl
      · intro s' h
        injection h with h
        subst h
        exact ⟨ht0, hext0⟩
  | some ut =>
    exact alterTypeFieldsLoop_inv (ks ++ "." ++ t) t ut.field_names tm.fields s

theorem runType_inv (env : UDTEnv) (ks : String) :
    ∀ (fuel : Nat) (job : TJob) (S : List String) (s : LiveKeyspace),
      (∀ st ∈ (runType env ks fuel job S s).stmts, isTypeStmt st = true) ∧
      (∀ s1 S1, (runType env ks fuel job S s).res = .ok (s1, S1) →
        s1.tables = s.tables ∧ TypeExt s s1) := by
  intro fuel
  induction fuel with
  | zero =>
    intro job S s
    constructor
    · intro st hst; simp [runType] at hst
    · intro s1 S1 h; simp [runType] at h
  | succ fuel ih =>
    intro job S s
    cases job with
    | typ t =>
      cases halo : alookup env t with
      | none =>
        constructor
        · intro st hst; simp [runType, halo] at hst
        · intro s1 S1 h; simp [runType, halo] at h
      | some tm =>
        have hsub := ih (.flds tm.fields) S s
        simp only [runType, halo]
        cases hr : (runType env ks fuel (.flds tm.fields) S s).res with
        | error e =>
          simp only [hr]
          constructor
          · intro st hst; exact hsub.1 st hst
          · intro s1 S1 h; simp at h
        | ok p =>
          obtain ⟨sA, SA⟩ := p
          simp only [hr]
          obtain ⟨htab, hext⟩ := hsub.2 sA SA hr
          have hown := syncTypeOwn_inv ks t tm sA
          cases ho : (syncTypeOwn ks t tm sA).2 with
          | error e =>
            simp only [ho]
            constructor
            · intro st hst
              rcases List.mem_append.1 hst with h1 | h1
              · exact hsub.1 st h1
              · exact hown.1 st h1
            · intro s1 S1 h; simp at h
          | ok sB =>
            simp only [ho]
            obtain ⟨htabB, hextB⟩ := hown.2 sB ho
            constructor
            · intro st hst
              rcases List.mem_append.1 hst with h1 | h1
              · exact hsub.1 st h1
              · exact hown.1 st h1
            · intro s1 S1 h
              injection h with h
              rw [Prod.mk.injEq] at h
              obtain ⟨rfl, rfl⟩ := h
              exact ⟨htabB.trans htab, hext.trans hextB⟩
    | flds fs =>
      cases fs with
      | nil =>
        constructor
        · intro st hst; simp [runType] at hst
        · intro s1 S1 h
          simp only [runType, Except.ok.injEq, Prod.mk.injEq] at h
          obtain ⟨rfl, rfl⟩ := h
          exact ⟨rfl, TypeExt.refl s⟩
      | cons f rest =>
        simp only [runType]
        have ha := ih (.pnd (pendingOf S f.resolved_udts)) S s
        cases hr : (runType env ks fuel (.pnd (pendingOf S f.resolved_udts)) S s).res with
        | error e =>
          simp only [hr]
          constructor
          · intro st hst; exact ha.1 st hst
          · intro s1 S1 h; simp at h
        | ok p =>
          obtain ⟨sA, SA⟩ := p
          simp only [hr]
          obtain ⟨htab, hext⟩ := ha.2 sA SA hr
          have hb := ih (.flds rest) SA sA
          constructor
          · intro st hst
            rcases List.mem_append.1 hst with h1 | h1
            · exact ha.1 st h1
            · exact hb.1 st h1
          · intro s1 S1 h
            obtain ⟨htab2, hext2⟩ := hb.2 s1 S1 h
            exact ⟨htab2.trans htab, hext.trans hext2⟩
    | pnd us =>
      cases us with
      | nil =>
        constructor
        · intro st hst; simp [runType] at hst
        · intro s1 S1 h
          simp only [runType, Except.ok.injEq, Prod.mk.injEq] at h
          obtain ⟨rfl, rfl⟩ := h
          exact ⟨rfl, TypeExt.refl s⟩
      | cons u rest =>
        simp only [runType]
        have ha := ih (.typ u) S s
        cases hr : (runType env ks fuel (.typ u) S s).res with
        | error e =>
          simp only [hr]
          constructor
          · intro st hst; exact ha.1 st hst
          · intro s1 S1 h; simp at h
        | ok p =>
          obtain ⟨sA, SA⟩ := p
          simp only [hr]
          obtain ⟨htab, hext⟩ := ha.2 sA SA hr
          have hb := ih (.pnd rest) (insertNew (if S.isEmpty then S else SA) u) sA
          constructor
          · intro st hst
            rcases List.mem_append.1 hst with h1 | h1
            · exact ha.1 st h1
            · exact hb.1 st h1
          · intro s1 S1 h
            obtain ⟨htab2, hext2⟩ := hb.2 s1 S1 h
            exact ⟨htab2.trans htab, hext.trans hext2⟩

theorem tablePend_inv (env : UDTEnv) (ks : String) (fuel : Nat) :
    ∀ (us : List String) (S : List String) (s : LiveKeyspace),
      (∀ st ∈ (tablePend env ks fuel us S s).stmts, isTypeStmt st = true) ∧
      (∀ s1 S1, (tablePend env ks fuel us S s).res = .ok (s1, S1) →
        s1.tables = s.tables ∧ TypeExt s s1) := by
  intro us
  induction us with
  | nil =>
    intro S s
    constructor
    · intro st hst; simp [tablePend] at hst
    · intro s1 S1 h
      simp only [tablePend, Except.ok.injEq, Prod.mk.injEq] at h
      obtain ⟨rfl, rfl⟩ := h
      exact ⟨rfl, TypeExt.refl s⟩
  | cons u rest ih =>
    intro S s
    simp only [tablePend]
    have ha := runType_inv env ks fuel (.typ u) S s
    cases hr : (runType env ks fuel (.typ u) S s).res with
    | error e =>
      simp only [hr]
      constructor
      · intro st hst; exact ha.1 st hst
      · intro s1 S1 h; simp at h
    | ok p =>
      obtain ⟨sA, SA⟩ := p
      simp only [hr]
      obtain ⟨htab, hext⟩ := ha.2 sA SA hr
      have hb := ih (if S.isEmpty then S else SA) sA
      constructor
      · intro st hst
        rcases List.mem_append.1 hst with h1 | h1
        · exact ha.1 st h1
        · exact hb.1 st h1
      · intro s1 S1 h
        obtain ⟨htab2, hext2⟩ := hb.2 s1 S1 h
        exact ⟨htab2.trans htab, hext.trans hext2⟩

theorem typePhase_inv (env : UDTEnv) (ks : String) (fuel : Nat) :
    ∀ (cols : List ModelColumn) (S : List String) (s : LiveKeyspace),
      (∀ st ∈ (typePhase env ks fuel cols S s).stmts, isTypeStmt st = true) ∧
      (∀ s1 S1, (typePhase env ks fuel cols S s).res = .ok (s1, S1) →
        s1.tables = s.tables ∧ TypeExt s s1) := by
  intro cols
  induction cols with
  | nil =>
    intro S s
    constructor
    · intro st hst; simp [typePhase] at hst
    · intro s1 S1 h
      simp only [typePhase, Except.ok.injEq, Prod.mk.injEq] at h
      obtain ⟨rfl, rfl⟩ := h
      exact ⟨rfl, TypeExt.refl s⟩
  | cons col rest ih =>
    intro S s
    simp only [typePhase]
    have ha := tablePend_inv env ks fuel (pendingOf S col.resolved_udts) S s
    cases hr : (tablePend env ks fuel (pendingOf S col.resolved_udts) S s).res with
    | error e =>
      simp only [hr]
      constructor
      · intro st hst; exact ha.1 st hst
      · intro s1 S1 h; simp at h
    | ok p =>
      obtain ⟨sA, SA⟩ := p
      simp only [hr]
      obtain ⟨htab, hext⟩ := ha.2 sA SA hr
      have hb := ih SA sA
      constructor
      · intro st hst
        rcases List.mem_append.1 hst with h1 | h1
        · exact ha.1 st h1
        · exact hb.1 st h1
      · intro s1 S1 h
        obtain ⟨htab2, hext2⟩ := hb.2 s1 S1 h
        exact ⟨htab2.trans htab, hext.trans hext2⟩

/-! ## Shape lemmas for the table-phase loops -/

theorem alterAddLoop_stmts_shape (cf raw : String) (field_names : List String) :
    ∀ (cols : List ModelColumn) (s : LiveKeyspace),
      ∀ st ∈ (alterAddLoop cf raw field_names cols s).1,
        ∃ c ∈ cols, c.primary_key = false ∧ c.partition_key = false ∧
          field_names.contains c.db_field_name = false ∧
          st = Stmt.alterTableAdd cf raw c.db_field_name c.column_def := by
  intro cols
  induction cols with
  | nil => intro s st hst; simp [alterAddLoop] at hst
  | cons col rest ih =>
    intro s st hst
    by_cases hpk : col.primary_key || col.partition_key
    · rw [alterAddLoop, if_pos hpk] at hst
      obtain ⟨c, hc, h⟩ := ih s st hst
      exact ⟨c, List.mem_cons_of_mem _ hc, h⟩
    · rw [alterAddLoop, if_neg hpk] at hst
      simp only [Bool.or_eq_true, not_or, Bool.not_eq_true] at hpk
      by_cases hin : field_names.contains col.db_field_name
      · rw [if_pos hin] at hst
        obtain ⟨c, hc, h⟩ := ih s st hst
        exact ⟨c, List.mem_cons_of_mem _ hc, h⟩
      · rw [if_neg hin] at hst
        cases happ : applyStmt s (Stmt.alterTableAdd cf raw col.db_field_name col.column_def) with
        | error e =>
          rw [happ] at hst
          simp only [List.mem_singleton] at hst
          exact ⟨col, List.mem_cons_self _ _, hpk.1, hpk.2, by simpa using hin, hst⟩
        | ok s0 =>
          rw [happ] at hst
          simp only [List.mem_cons] at hst
          rcases hst with h1 | h1
          · exact ⟨col, List.mem_cons_self _ _, hpk.1, hpk.2, by simpa using hin, h1⟩
          · obtain ⟨c, hc, h⟩ := ih s0 st h1
            exact ⟨c, List.mem_cons_of_mem _ hc, h⟩

theorem indexLoop_stmts_shape (cf raw : String) (snapshot : List String) :
    ∀ (cols : List ModelColumn) (s : LiveKeyspace),
      ∀ st ∈ (indexLoop cf raw snapshot cols s).1,
        ∃ c ∈ cols, st = Stmt.createIndex (indexName raw c.db_field_name) cf raw c.db_field_name := by
  intro cols
  induction cols with
  | nil => intro s st hst; simp [indexLoop] at hst
  | cons col rest ih =>
    intro s st hst
    by_cases hin : snapshot.contains (indexName raw col.db_field_name)
    · rw [indexLoop, if_pos hin] at hst
      obtain ⟨c, hc, h⟩ := ih s st hst
      exact ⟨c, List.mem_cons_of_mem _ hc, h⟩
    · rw [indexLoop, if_neg hin] at hst
      cases happ : applyStmt s (Stmt.createIndex (indexName raw col.db_field_name) cf raw
          col.db_field_name) with
      | error e =>
        rw [happ] at hst
        simp only [List.mem_singleton] at hst
        exact ⟨col, List.mem_cons_self _ _, hst⟩
      | ok s0 =>
        rw [happ] at hst
        simp only [List.mem_cons] at hst
        rcases hst with h1 | h1
        · exact ⟨col, List.mem_cons_self _ _, h1⟩
        · obtain ⟨c, hc, h⟩ := ih s0 st h1
          exact ⟨c, List.mem_cons_of_mem _ hc, h⟩

theorem update_options_stmts_shape (m : TableModel) (s : LiveKeyspace) :
    ∀ st ∈ (_update_options m s).1,
      ∃ upd, st = Stmt.alterTableWith m.cf_name m.raw_cf_name upd := by
  intro st hst
  simp only [_update_options] at hst
  split at hst
  · simp at hst
  · split at hst
    · simp at hst
    · simp at hst
    · split at hst <;> (simp only [List.mem_singleton] at hst; exact ⟨_, hst⟩)

theorem createStep_stmts (m : TableModel) (cf0 : Option ExecErr) (s : LiveKeyspace) :
    (createStep m cf0 s).1 = [Stmt.createTable m] := by
  simp only [createStep]
  split
  · rfl
  · split <;> rfl

/-- C5: for a declared table already present in the live keyspace,
`sync_table` never executes an `ALTER TABLE ... add` statement for a
column that is part of the primary key (primary-key or partition-key
flag), even if it is absent from the live column set — such columns are
skipped by the additive reconciliation loop (line 171-172), and no other
phase emits an `ALTER TABLE ... add`.  (The hypothesis `hshared` rules
out an unrelated non-key column that happens to carry the same
`db_field_name`, which a Python model cannot express twice anyway.) -/
theorem C5_primary_key_never_altered (env : UDTEnv) (fuel : Nat) (m : TableModel)
    (cf0 : Option ExecErr) (s : LiveKeyspace) (c : ModelColumn)
    (hlive : (alookup s.tables m.raw_cf_name).isSome = true)
    (hc : c ∈ m.columns)
    (hpk : c.primary_key = true ∨ c.partition_key = true)
    (hshared : ∀ c2 ∈ m.columns, c2.db_field_name = c.db_field_name →
      (c2.primary_key = true ∨ c2.partition_key = true)) :
    ∀ cf raw cdef,
      Stmt.alterTableAdd cf raw c.db_field_name cdef ∉ (sync_table env fuel m cf0 s).stmts := by
  intro cf raw cdef hmem
  have htypeStmt : ∀ st ∈ (typePhase env m.ks_name fuel m.columns [] s).stmts,
      isTypeStmt st = true :=
    (typePhase_inv env m.ks_name fuel m.columns [] s).1
  have hnotType : isTypeStmt (Stmt.alterTableAdd cf raw c.db_field_name cdef) = false := rfl
  have hadd : ∀ h1 : Stmt.alterTableAdd cf raw c.db_field_name cdef ∈
      (typePhase env m.ks_name fuel m.columns [] s).stmts, False := by
    intro h1
    have := htypeStmt _ h1
    rw [hnotType] at this
    exact Bool.false_ne_true this
  by_cases hab : m.abstract = true
  · simp [sync_table, hab] at hmem
  · simp only [sync_table, hab, if_false] at hmem
    cases htp : (typePhase env m.ks_name fuel m.columns [] s).res with
    | error e =>
      simp only [htp] at hmem
      exact hadd hmem
    | ok p =>
      obtain ⟨s1, S1⟩ := p
      simp only [htp] at hmem
      have htabs : s1.tables = s.tables :=
        ((typePhase_inv env m.ks_name fuel m.columns [] s).2 s1 S1 htp).1
      cases halo : alookup s1.tables m.raw_cf_name with
      | none =>
        rw [htabs] at halo
        rw [halo] at hlive
        simp at hlive
      | some t =>
        simp only [halo] at hmem
        have hAddSeg : ∀ s', Stmt.alterTableAdd cf raw c.db_field_name cdef ∈
            (alterAddLoop m.cf_name m.raw_cf_name (_get_non_pk_field_names t) m.columns s').1 →
            False := by
          intro s' h1
          obtain ⟨c2, hc2, hnp, hnq, _, heq⟩ :=
            alterAddLoop_stmts_shape m.cf_name m.raw_cf_name (_get_non_pk_field_names t)
              m.columns s' _ h1
          injection heq with h_cf h_raw h_db h_cd
          rcases hshared c2 hc2 h_db.symm with hh | hh
          · rw [hnp] at hh; exact Bool.false_ne_true hh
          · rw [hnq] at hh; exact Bool.false_ne_true hh
        have hUoSeg : ∀ s', Stmt.alterTableAdd cf raw c.db_field_name cdef ∈
            (_update_options m s').1 → False := by
          intro s' h1
          obtain ⟨upd, heq⟩ := update_options_stmts_shape m s' _ h1
          simp at heq
        have hIxSeg : ∀ snap cols s', Stmt.alterTableAdd cf raw c.db_field_name cdef ∈
            (indexLoop m.cf_name m.raw_cf_name snap cols s').1 → False := by
          intro snap cols s' h1
          obtain ⟨c2, hc2, heq⟩ := indexLoop_stmts_shape m.cf_name m.raw_cf_name snap cols s' _ h1
          simp at heq
        have hIxPhase : ∀ s', Stmt.alterTableAdd cf raw c.db_field_name cdef ∈
            (indexPhase m s').1 → False := by
          intro s' h1
          simp only [indexPhase] at h1
          split at h1
          · simp at h1
          · exact hIxSeg _ _ _ h1
        cases had : (alterAddLoop m.cf_name m.raw_cf_name (_get_non_pk_field_names t)
            m.columns s1).2 with
        | error e =>
          simp only [had] at hmem
          rcases List.mem_append.1 hmem with h1 | h1
          · exact hadd h1
          · exact hAddSeg s1 h1
        | ok s2 =>
          simp only [had] at hmem
          cases huo : (_update_options m s2).2 with
          | error e =>
            simp only [huo] at hmem
            rcases List.mem_append.1 hmem with h1 | h1
            · rcases List.mem_append.1 h1 with h2 | h2
              · exact hadd h2
              · exact hAddSeg s1 h2
            · exact hUoSeg s2 h1
          | ok s3 =>
            simp only [huo] at hmem
            rcases List.mem_append.1 hmem with h1 | h1
            · rcases List.mem_append.1 h1 with h2 | h2
              · rcases List.mem_append.1 h2 with h3 | h3
                · exact hadd h3
                · exact hAddSeg s1 h3
              · exact hUoSeg s2 h2
            · exact hIxPhase s3 h1

theorem C5_primary_key_never_altered_witness :
    Stmt.alterTableAdd "x" "y" "id" "z" ∉
      (sync_table []
        5
        ({ abstract := false, cf_name := "ks.t", raw_cf_name := "t", ks_name := "ks",
           columns := [{ name := "id", db_field_name := "id", primary_key := true,
                         partition_key := true, clustering_order := none, index := false,
                         column_def := "id uuid", resolved_udts := [] }],
           options := [] })
        none
        ⟨[("t", ⟨["id"], ["id"], [], []⟩)], []⟩).stmts :=
  C5_primary_key_never_altered [] 5
    ({ abstract := false, cf_name := "ks.t", raw_cf_name := "t", ks_name := "ks",
       columns := [{ name := "id", db_field_name := "id", primary_key := true,
                     partition_key := true, clustering_order := none, index := false,
                     column_def := "id uuid", resolved_udts := [] }],
       options := [] })
    none
    ⟨[("t", ⟨["id"], ["id"], [], []⟩)], []⟩
    ({ name := "id", db_field_name := "id", primary_key := true,
       partition_key := true, clustering_order := none, index := false,
       column_def := "id uuid", resolved_udts := [] })
    rfl (by decide) (Or.inl rfl) (by decide) "x" "y" "z"

/-- C7: when executing the CREATE TABLE statement for an absent table
fails with a collaborator-reported error `e`, `sync_table` swallows the
error iff `e`'s message contains the "Cannot add already existing column
family" fragment, in which case it continues with the metadata re-read
and index reconciliation on the unchanged state; any other execution
failure propagates to the caller unchanged (wrapped only as the execution
error it is). -/
theorem C7_create_failure_swallow (env : UDTEnv) (fuel : Nat) (m : TableModel)
    (s s1 : LiveKeyspace) (S1 : List String) (e : ExecErr)
    (hab : m.abstract = false)
    (htp : (typePhase env m.ks_name fuel m.columns [] s).res = .ok (s1, S1))
    (habs : alookup s1.tables m.raw_cf_name = none) :
    (strContains e.message cfExistsMsg = true →
      sync_table env fuel m (some e) s =
        ⟨(typePhase env m.ks_name fuel m.columns [] s).stmts ++ [Stmt.createTable m] ++
            (indexPhase m s1).1,
          (typePhase env m.ks_name fuel m.columns [] s).calls,
          (indexPhase m s1).2⟩) ∧
    (strContains e.message cfExistsMsg = false →
      sync_table env fuel m (some e) s =
        ⟨(typePhase env m.ks_name fuel m.columns [] s).stmts ++ [Stmt.createTable m],
          (typePhase env m.ks_name fuel m.columns [] s).calls,
          Except.error (SyncErr.exec e)⟩) := by
  constructor
  · intro hsw
    simp [sync_table, hab, htp, habs, createStep, hsw]
  · intro hsw
    simp [sync_table, hab, htp, habs, createStep, hsw]

/-- The concrete model used by the C7 witness. -/
def c7Model : TableModel :=
  { abstract := false, cf_name := "ks.t", raw_cf_name := "t", ks_name := "ks",
    columns := [], options := [] }

theorem C7_create_failure_swallow_witness :
    sync_table [] 1 c7Model (some (ExecErr.cfAlreadyExists "ks.t")) ⟨[], []⟩ =
      ⟨(typePhase [] "ks" 1 [] [] ⟨[], []⟩).stmts ++ [Stmt.createTable c7Model] ++
          (indexPhase c7Model ⟨[], []⟩).1,
        (typePhase [] "ks" 1 [] [] ⟨[], []⟩).calls,
        (indexPhase c7Model ⟨[], []⟩).2⟩ :=
  (C7_create_failure_swallow [] 1 c7Model ⟨[], []⟩ ⟨[], []⟩ [] (ExecErr.cfAlreadyExists "ks.t")
    rfl rfl rfl).1 rfl

/-! ## Claim C3: additivity of the whole synchronization -/

/-- Statement-text classification for claim C3: every statement the module
builds is a `CREATE ...`, an additive `ALTER ... ADD`, or an
`ALTER TABLE ... WITH` over options — never a `DROP` or a rename. -/
def AdditiveRender (q : String) : Prop :=
  (∃ r, q = "CREATE TABLE " ++ r) ∨
  (∃ r, q = "CREATE INDEX " ++ r) ∨
  (∃ r, q = "CREATE TYPE " ++ r) ∨
  (∃ a b, q = "ALTER TABLE " ++ a ++ " add " ++ b) ∨
  (∃ a b, q = "ALTER TABLE " ++ a ++ " WITH " ++ b) ∨
  (∃ a b, q = "ALTER TYPE " ++ a ++ " ADD " ++ b)

theorem stmt_render_additive (st : Stmt) : AdditiveRender st.render := by
  cases st with
  | createTable m => exact Or.inl ⟨_, rfl⟩
  | createIndex idx cf raw db => exact Or.inr (Or.inl ⟨_, rfl⟩)
  | createType ks t fdbs fdefs => exact Or.inr (Or.inr (Or.inl ⟨_, rfl⟩))
  | alterTableAdd cf raw db cd => exact Or.inr (Or.inr (Or.inr (Or.inl ⟨cf, cd, rfl⟩)))
  | alterTableWith cf raw upd =>
    exact Or.inr (Or.inr (Or.inr (Or.inr (Or.inl ⟨cf, renderOptions upd, rfl⟩))))
  | alterTypeAdd tq t db cd =>
    exact Or.inr (Or.inr (Or.inr (Or.inr (Or.inr ⟨tq, cd, rfl⟩))))

/-- `s2` extends `s` on the whole schema: every live table survives with
at least its old columns and indexes and an unchanged primary key, and
every live type survives with at least its old fields.  (Options are the
one thing `ALTER TABLE ... WITH` may rewrite.) -/
def SchemaLE (s s2 : LiveKeyspace) : Prop :=
  (∀ n t, alookup s.tables n = some t →
    ∃ t2, alookup s2.tables n = some t2 ∧
      (∀ c ∈ t.columns, c ∈ t2.columns) ∧
      (∀ i ∈ t.indexes, i ∈ t2.indexes) ∧
      t2.primary_key = t.primary_key) ∧
  TypeExt s s2

theorem SchemaLE.self (s : LiveKeyspace) : SchemaLE s s :=
  ⟨fun n t h => ⟨t, h, fun c hc => hc, fun i hi => hi, rfl⟩, TypeExt.refl s⟩

theorem SchemaLE.comp {s1 s2 s3 : LiveKeyspace} (h12 : SchemaLE s1 s2)
    (h23 : SchemaLE s2 s3) : SchemaLE s1 s3 := by
  refine ⟨?_, h12.2.trans h23.2⟩
  intro n t h
  obtain ⟨t2, h2, hc2, hi2, hp2⟩ := h12.1 n t h
  obtain ⟨t3, h3, hc3, hi3, hp3⟩ := h23.1 n t2 h2
  exact ⟨t3, h3, fun c hc => hc3 c (hc2 c hc), fun i hi => hi3 i (hi2 i hi),
    hp3.trans hp2⟩

theorem schemaLE_of_tables_eq {s s2 : LiveKeyspace} (htab : s2.tables = s.tables)
    (hext : TypeExt s s2) : SchemaLE s s2 :=
  ⟨fun n t h => ⟨t, htab ▸ h, fun c hc => hc, fun i hi => hi, rfl⟩, hext⟩

theorem typeExt_of_user_types_eq {s s2 : LiveKeyspace}
    (h : s2.user_types = s.user_types) : TypeExt s s2 :=
  fun n ut hn => ⟨ut, h ▸ hn, fun f hf => hf⟩

theorem applyStmt_schemaLE {s s' : LiveKeyspace} {st : Stmt}
    (h : applyStmt s st = .ok s') : SchemaLE s s' := by
  cases st with
  | createTable m =>
    simp only [applyStmt] at h
    by_cases hex : (alookup s.tables m.raw_cf_name).isSome
    · simp [hex] at h
    · simp only [hex, Bool.false_eq_true, if_false] at h
      by_cases hnd : !nodupB (m.columns.map (fun c => c.db_field_name))
      · simp [hnd] at h
      · simp only [hnd, Bool.false_eq_true, if_false, Except.ok.injEq] at h
        subst h
        refine ⟨?_, typeExt_of_user_types_eq rfl⟩
        intro n t hn
        have hne : m.raw_cf_name ≠ n := by
          rintro rfl
          rw [hn] at hex
          simp at hex
        exact ⟨t, by
          simpa [alookup_aset_other _ _ _ _ (fun hh => hne hh.symm)] using hn,
          fun c hc => hc, fun i hi => hi, rfl⟩
  | alterTableAdd cf raw db cd =>
    simp only [applyStmt] at h
    cases hl : alookup s.tables raw with
    | none => rw [hl] at h; simp at h
    | some t =>
      rw [hl] at h
      by_cases hdb : db ∈ t.columns
      · simp [hdb] at h
      · simp only [hdb, if_false, if_neg hdb, Except.ok.injEq] at h
        subst h
        refine ⟨?_, typeExt_of_user_types_eq rfl⟩
        intro n t0 hn
        by_cases hne : raw = n
        · subst hne
          rw [hl] at hn
          injection hn with hn
          subst hn
          exact ⟨{ t with columns := t.columns ++ [db] }, by simp [alookup_aset_self],
            fun c hc => List.mem_append_left _ hc, fun i hi => hi, rfl⟩
        · exact ⟨t0, by
            simpa [alookup_aset_other _ _ _ _ (fun hh => hne hh.symm)] using hn,
            fun c hc => hc, fun i hi => hi, rfl⟩
  | alterTableWith cf raw upd =>
    simp only [applyStmt] at h
    cases hl : alookup s.tables raw with
    | none => rw [hl] at h; simp at h
    | some t =>
      rw [hl] at h
      simp only [Except.ok.injEq] at h
      subst h
      refine ⟨?_, typeExt_of_user_types_eq rfl⟩
      intro n t0 hn
      by_cases hne : raw = n
      · subst hne
        rw [hl] at hn
        injection hn with hn
        subst hn
        exact ⟨{ t with options := upd.foldl (fun o nv => aset o nv.1 nv.2) t.options },
          by simp [alookup_aset_self], fun c hc => hc, fun i hi => hi, rfl⟩
      · exact ⟨t0, by
          simpa [alookup_aset_other _ _ _ _ (fun hh => hne hh.symm)] using hn,
          fun c hc => hc, fun i hi => hi, rfl⟩
  | createIndex idx cf raw db =>
    simp only [applyStmt] at h
    cases hl : alookup s.tables raw with
    | none => rw [hl] at h; simp at h
    | some t =>
      rw [hl] at h
      by_cases hdx : idx ∈ t.indexes
      · simp [hdx] at h
      · simp only [hdx, if_false, if_neg hdx, Except.ok.injEq] at h
        subst h
        refine ⟨?_, typeExt_of_user_types_eq rfl⟩
        intro n t0 hn
        by_cases hne : raw = n
        · subst hne
          rw [hl] at hn
          injection hn with hn
          subst hn
          exact ⟨{ t with indexes := t.indexes ++ [idx] }, by simp [alookup_aset_self],
            fun c hc => hc, fun i hi => List.mem_append_left _ hi, rfl⟩
        · exact ⟨t0, by
            simpa [alookup_aset_other _ _ _ _ (fun hh => hne hh.symm)] using hn,
            fun c hc => hc, fun i hi => hi, rfl⟩
  | createType ks t fdbs fdefs =>
    obtain ⟨htab, hext, _⟩ := applyStmt_createType_inv h
    exact schemaLE_of_tables_eq htab hext
  | alterTypeAdd tq t db cd =>
    obtain ⟨htab, hext⟩ := applyStmt_alterTypeAdd_inv h
    exact schemaLE_of_tables_eq htab hext

theorem alterAddLoop_schemaLE (cf raw : String) (fns : List String) :
    ∀ (cols : List ModelColumn) (s s' : LiveKeyspace),
      (alterAddLoop cf raw fns cols s).2 = .ok s' → SchemaLE s s' := by
  intro cols
  induction cols with
  | nil =>
    intro s s' h
    simp only [alterAddLoop, Except.ok.injEq] at h
    subst h
    exact SchemaLE.self s
  | cons col rest ih =>
    intro s s' h
    by_cases hpk : (col.primary_key || col.partition_key) = true
    · rw [alterAddLoop, if_pos hpk] at h
      exact ih s s' h
    · rw [alterAddLoop, if_neg hpk] at h
      by_cases hin : fns.contains col.db_field_name = true
      · rw [if_pos hin] at h
        exact ih s s' h
      · rw [if_neg hin] at h
        cases happ : applyStmt s (Stmt.alterTableAdd cf raw col.db_field_name col.column_def) with
        | error e => rw [happ] at h; simp at h
        | ok s0 =>
          rw [happ] at h
          exact (applyStmt_schemaLE happ).comp (ih s0 s' h)

theorem indexLoop_schemaLE (cf raw : String) (snap : List String) :
    ∀ (cols : List ModelColumn) (s s' : LiveKeyspace),
      (indexLoop cf raw snap cols s).2 = .ok s' → SchemaLE s s' := by
  intro cols
  induction cols with
  | nil =>
    intro s s' h
    simp only [indexLoop, Except.ok.injEq] at h
    subst h
    exact SchemaLE.self s
  | cons col rest ih =>
    intro s s' h
    by_cases hin : snap.contains (indexName raw col.db_field_name) = true
    · rw [indexLoop, if_pos hin] at h
      exact ih s s' h
    · rw [indexLoop, if_neg hin] at h
      cases happ : applyStmt s (Stmt.createIndex (indexName raw col.db_field_name) cf raw
          col.db_field_name) with
      | error e => rw [happ] at h; simp at h
      | ok s0 =>
        rw [happ] at h
        exact (applyStmt_schemaLE happ).comp (ih s0 s' h)

theorem update_options_schemaLE (m : TableModel) (s s' : LiveKeyspace)
    (h : (_update_options m s).2 = .ok s') : SchemaLE s s' := by
  simp only [_update_options] at h
  split at h
  · simp at h
  · split at h
    · simp at h
    · injection h with h
      subst h
      exact SchemaLE.self s
    · split at h
      · simp at h
      · next s0 happ =>
        injection h with h
        subst h
        exact applyStmt_schemaLE happ

theorem createStep_schemaLE (m : TableModel) (cf0 : Option ExecErr) (s s' : LiveKeyspace)
    (h : (createStep m cf0 s).2 = .ok s') : SchemaLE s s' := by
  simp only [createStep] at h
  split at h
  · next s0 heq =>
    injection h with h
    subst h
    cases cf0 with
    | some e => simp at heq
    | none => exact applyStmt_schemaLE heq
  · next e heq =>
    split at h
    · injection h with h
      subst h
      exact SchemaLE.self s
    · simp at h

theorem indexPhase_schemaLE (m : TableModel) (s s' : LiveKeyspace)
    (h : (indexPhase m s).2 = .ok s') : SchemaLE s s' := by
  simp only [indexPhase] at h
  split at h
  · simp at h
  · exact indexLoop_schemaLE m.cf_name m.raw_cf_name _ _ s s' h

theorem sync_table_schemaLE (env : UDTEnv) (fuel : Nat) (m : TableModel)
    (cf0 : Option ExecErr) (s s' : LiveKeyspace)
    (h : (sync_table env fuel m cf0 s).outcome = .ok s') : SchemaLE s s' := by
  by_cases hab : m.abstract = true
  · simp [sync_table, hab] at h
  · simp only [sync_table, hab, if_false] at h
    cases htp : (typePhase env m.ks_name fuel m.columns [] s).res with
    | error e => simp [htp] at h
    | ok p =>
      obtain ⟨s1, S1⟩ := p
      simp only [htp] at h
      obtain ⟨htab1, hext1⟩ := (typePhase_inv env m.ks_name fuel m.columns [] s).2 s1 S1 htp
      have h1 : SchemaLE s s1 := schemaLE_of_tables_eq htab1 hext1
      cases halo : alookup s1.tables m.raw_cf_name with
      | none =>
        simp only [halo] at h
        cases hcr : (createStep m cf0 s1).2 with
        | error e => simp [hcr] at h
        | ok s2 =>
          simp only [hcr] at h
          exact h1.comp ((createStep_schemaLE m cf0 s1 s2 hcr).comp
            (indexPhase_schemaLE m s2 s' h))
      | some t =>
        simp only [halo] at h
        cases had : (alterAddLoop m.cf_name m.raw_cf_name (_get_non_pk_field_names t)
            m.columns s1).2 with
        | error e => simp [had] at h
        | ok s2 =>
          simp only [had] at h
          cases huo : (_update_options m s2).2 with
          | error e => simp [huo] at h
          | ok s3 =>
            simp only [huo] at h
            exact ((h1.comp (alterAddLoop_schemaLE m.cf_name m.raw_cf_name
                (_get_non_pk_field_names t) m.columns s1 s2 had)).comp
              (update_options_schemaLE m s2 s3 huo)).comp
              (indexPhase_schemaLE m s3 s' h)

/-- C3: for a declared table already live, if `sync_table` completes then
the live columns of that table afterwards are a superset of those before;
more generally the final schema extends the initial one — no column,
index, type or type field observed in the live schema is ever dropped and
no primary key changed (`SchemaLE`) — and every issued statement is a
`CREATE ...`, an additive `ALTER ... ADD`, or an `ALTER TABLE ... WITH`
over options (`AdditiveRender`). -/
theorem C3_additive_superset (env : UDTEnv) (fuel : Nat) (m : TableModel)
    (cf0 : Option ExecErr) (s : LiveKeyspace) (t0 : LiveTable) (s' : LiveKeyspace)
    (hlive : alookup s.tables m.raw_cf_name = some t0)
    (hok : (sync_table env fuel m cf0 s).outcome = .ok s') :
    (∃ t', alookup s'.tables m.raw_cf_name = some t' ∧
      (∀ c ∈ t0.columns, c ∈ t'.columns) ∧ (∀ i ∈ t0.indexes, i ∈ t'.indexes)) ∧
    SchemaLE s s' ∧
    (∀ st ∈ (sync_table env fuel m cf0 s).stmts, AdditiveRender st.render) := by
  have hle := sync_table_schemaLE env fuel m cf0 s s' hok
  obtain ⟨t', ht', hc, hi, _⟩ := hle.1 m.raw_cf_name t0 hlive
  exact ⟨⟨t', ht', hc, hi⟩, hle, fun st _ => stmt_render_additive st⟩

theorem C3_additive_superset_witness :
    (∃ t', alookup ((⟨[("t", ⟨["id", "live_only"], ["id"], [], []⟩)], []⟩ :
        LiveKeyspace).tables) "t" = some t' ∧
      (∀ c ∈ (⟨["id", "live_only"], ["id"], [], []⟩ : LiveTable).columns, c ∈ t'.columns) ∧
      (∀ i ∈ (⟨["id", "live_only"], ["id"], [], []⟩ : LiveTable).indexes, i ∈ t'.indexes)) ∧
    SchemaLE ⟨[("t", ⟨["id", "live_only"], ["id"], [], []⟩)], []⟩
      ⟨[("t", ⟨["id", "live_only"], ["id"], [], []⟩)], []⟩ ∧
    (∀ st ∈ (sync_table [] 3
      ({ abstract := false, cf_name := "ks.t", raw_cf_name := "t", ks_name := "ks",
         columns := [], options := [] })
      none ⟨[("t", ⟨["id", "live_only"], ["id"], [], []⟩)], []⟩).stmts,
      AdditiveRender st.render) :=
  C3_additive_superset [] 3
    ({ abstract := false, cf_name := "ks.t", raw_cf_name := "t", ks_name := "ks",
       columns := [], options := [] })
    none ⟨[("t", ⟨["id", "live_only"], ["id"], [], []⟩)], []⟩
    ⟨["id", "live_only"], ["id"], [], []⟩
    ⟨[("t", ⟨["id", "live_only"], ["id"], [], []⟩)], []⟩ rfl rfl

/-! ## Re-running the type phase on its own result is silent (for C1) -/

theorem alterTypeFieldsLoop_noop (tq t : String) (defined : List String)
    (fields : List UDTField) (s : LiveKeyspace)
    (h : ∀ f ∈ fields, f.db_field_name ∈ defined) :
    alterTypeFieldsLoop tq t defined fields s = ([], .ok s) := by
  induction fields with
  | nil => rfl
  | cons f rest ih =>
    rw [alterTypeFieldsLoop, if_pos (h f (List.mem_cons_self _ _))]
    exact ih (fun g hg => h g (List.mem_cons_of_mem _ hg))

theorem alterTypeFieldsLoop_post (tq t : String) (defined : List String) :
    ∀ (fields : List UDTField) (s s' : LiveKeyspace) (ut0 : ULiveType),
      (alterTypeFieldsLoop tq t defined fields s).2 = .ok s' →
      alookup s.user_types t = some ut0 →
      (∀ x ∈ defined, x ∈ ut0.field_names) →
      ∃ ut', alookup s'.user_types t = some ut' ∧
        (∀ x ∈ ut0.field_names, x ∈ ut'.field_names) ∧
        ∀ f ∈ fields, f.db_field_name ∈ ut'.field_names := by
  intro fields
  induction fields with
  | nil =>
    intro s s' ut0 h hut hdef
    simp only [alterTypeFieldsLoop, Except.ok.injEq] at h
    subst h
    exact ⟨ut0, hut, fun x hx => hx, by simp⟩
  | cons f rest ih =>
    intro s s' ut0 h hut hdef
    by_cases hf : f.db_field_name ∈ defined
    · rw [alterTypeFieldsLoop, if_pos hf] at h
      obtain ⟨ut', hl, hmono, hall⟩ := ih s s' ut0 h hut hdef
      refine ⟨ut', hl, hmono, ?_⟩
      intro g hg
      rcases List.mem_cons.1 hg with h1 | h1
      · subst h1; exact hmono _ (hdef _ hf)
      · exact hall g h1
    · rw [alterTypeFieldsLoop, if_neg hf] at h
      cases happ : applyStmt s (Stmt.alterTypeAdd tq t f.db_field_name f.column_def) with
      | error e => rw [happ] at h; simp at h
      | ok s0 =>
        rw [happ] at h
        have hlook0 : alookup s0.user_types t = some ⟨ut0.field_names ++ [f.db_field_name]⟩ := by
          simp only [applyStmt, hut] at happ
          by_cases hdb : f.db_field_name ∈ ut0.field_names
          · simp [hdb] at happ
          · simp only [hdb, if_false, if_neg hdb, Except.ok.injEq] at happ
            subst happ
            simp [alookup_aset_self]
        obtain ⟨ut', hl, hmono, hall⟩ := ih s0 s' ⟨ut0.field_names ++ [f.db_field_name]⟩ h hlook0
          (fun x hx => List.mem_append_left _ (hdef x hx))
        refine ⟨ut', hl, fun x hx => hmono x (List.mem_append_left _ hx), ?_⟩
        intro g hg
        rcases List.mem_cons.1 hg with h1 | h1
        · subst h1
          exact hmono _ (List.mem_append_right _ (List.mem_singleton_self _))
        · exact hall g h1

theorem syncTypeOwn_noop (ks t : String) (tm : UDTModelDef) (s : LiveKeyspace)
    (ut : ULiveType) (hl : alookup s.user_types t = some ut)
    (hall : ∀ f ∈ tm.fields, f.db_field_name ∈ ut.field_names) :
    syncTypeOwn ks t tm s = ([], .ok s) := by
  simp only [syncTypeOwn, hl]
  exact alterTypeFieldsLoop_noop (ks ++ "." ++ t) t ut.field_names tm.fields s hall

theorem syncTypeOwn_post (ks t : String) (tm : UDTModelDef) (s s' : LiveKeyspace)
    (h : (syncTypeOwn ks t tm s).2 = .ok s') :
    ∃ ut', alookup s'.user_types t = some ut' ∧
      ∀ f ∈ tm.fields, f.db_field_name ∈ ut'.field_names := by
  simp only [syncTypeOwn] at h
  cases hl : alookup s.user_types t with
  | none =>
    rw [hl] at h
    cases happ : applyStmt s (Stmt.createType ks t (tm.fields.map (fun f => f.db_field_name))
        (tm.fields.map (fun f => f.column_def))) with
    | error e => rw [happ] at h; simp at h
    | ok s0 =>
      rw [happ] at h
      injection h with h
      subst h
      obtain ⟨_, _, hlook⟩ := applyStmt_createType_inv happ
      exact ⟨⟨tm.fields.map (fun f => f.db_field_name)⟩, hlook,
        fun f hf => List.mem_map.2 ⟨f, hf, rfl⟩⟩
  | some ut =>
    rw [hl] at h
    obtain ⟨ut', hlook, _, hall⟩ :=
      alterTypeFieldsLoop_post (ks ++ "." ++ t) t ut.field_names tm.fields s s' ut h hl
        (fun x hx => hx)
    exact ⟨ut', hlook, hall⟩

theorem runType_rerun (env : UDTEnv) (ks : String) :
    ∀ (fuel : Nat) (job : TJob) (S : List String) (s s1 : LiveKeyspace) (S1 : List String),
      (runType env ks fuel job S s).res = .ok (s1, S1) →
      ∀ s2, TypeExt s1 s2 →
        runType env ks fuel job S s2 =
          ⟨[], (runType env ks fuel job S s).calls, .ok (s2, S1)⟩ := by
  intro fuel
  induction fuel with
  | zero =>
    intro job S s s1 S1 hres s2 hext
    simp [runType] at hres
  | succ fuel ih =>
    intro job S s s1 S1 hres s2 hext
    cases job with
    | typ t =>
      cases halo : alookup env t with
      | none => simp [runType, halo] at hres
      | some tm =>
        simp only [runType, halo] at hres ⊢
        cases hsub : (runType env ks fuel (.flds tm.fields) S s).res with
        | error e => simp [hsub] at hres
        | ok p =>
          obtain ⟨sA, SA⟩ := p
          simp only [hsub] at hres
          cases hown : (syncTypeOwn ks t tm sA).2 with
          | error e => simp [hown] at hres
          | ok sB =>
            simp only [hown] at hres
            injection hres with hres
            rw [Prod.mk.injEq] at hres
            obtain ⟨rfl, rfl⟩ := hres
            have hextAB : TypeExt sA sB := ((syncTypeOwn_inv ks t tm sA).2 sB hown).2
            have hrw := ih (.flds tm.fields) S s sA SA hsub s2 (hextAB.trans hext)
            rw [hrw]
            obtain ⟨ut', hlook, hall⟩ := syncTypeOwn_post ks t tm sA sB hown
            obtain ⟨ut2, hlook2, hsub2⟩ := hext t ut' hlook
            have hnoop := syncTypeOwn_noop ks t tm s2 ut2 hlook2
              (fun f hf => hsub2 _ (hall f hf))
            simp [hsub, hown, hnoop]
    | flds fs =>
      cases fs with
      | nil =>
        simp only [runType, Except.ok.injEq, Prod.mk.injEq] at hres
        obtain ⟨rfl, rfl⟩ := hres
        simp [runType]
      | cons f rest =>
        simp only [runType] at hres ⊢
        cases ha : (runType env ks fuel (.pnd (pendingOf S f.resolved_udts)) S s).res with
        | error e => simp [ha] at hres
        | ok p =>
          obtain ⟨sA, SA⟩ := p
          simp only [ha] at hres
          have hextA1 : TypeExt sA s1 :=
            ((runType_inv env ks fuel (.flds rest) SA sA).2 s1 S1 hres).2
          have hrwa := ih (.pnd (pendingOf S f.resolved_udts)) S s sA SA
            ha s2 (hextA1.trans hext)
          have hrwb := ih (.flds rest) SA sA s1 S1 hres s2 hext
          rw [hrwa]
          simp [hrwb, ha, hres]
    | pnd us =>
      cases us with
      | nil =>
        simp only [runType, Except.ok.injEq, Prod.mk.injEq] at hres
        obtain ⟨rfl, rfl⟩ := hres
        simp [runType]
      | cons u rest =>
        simp only [runType] at hres ⊢
        cases ha : (runType env ks fuel (.typ u) S s).res with
        | error e => simp [ha] at hres
        | ok p =>
          obtain ⟨sA, SA⟩ := p
          simp only [ha] at hres
          have hextA1 : TypeExt sA s1 :=
            ((runType_inv env ks fuel
              (.pnd rest) (insertNew (if S.isEmpty then S else SA) u) sA).2 s1 S1 hres).2
          have hrwa := ih (.typ u) S s sA SA ha s2 (hextA1.trans hext)
          have hrwb := ih (.pnd rest) (insertNew (if S.isEmpty then S else SA) u) sA s1 S1
            hres s2 hext
          rw [hrwa]
          simp only [List.isEmpty_iff] at hrwb
          simp [hrwb, ha, hres]

theorem tablePend_rerun (env : UDTEnv) (ks : String) (fuel : Nat) :
    ∀ (us : List String) (S : List String) (s s1 : LiveKeyspace) (S1 : List String),
      (tablePend env ks fuel us S s).res = .ok (s1, S1) →
      ∀ s2, TypeExt s1 s2 →
        tablePend env ks fuel us S s2 =
          ⟨[], (tablePend env ks fuel us S s).calls, .ok (s2, S1)⟩ := by
  intro us
  induction us with
  | nil =>
    intro S s s1 S1 hres s2 hext
    simp only [tablePend, Except.ok.injEq, Prod.mk.injEq] at hres
    obtain ⟨rfl, rfl⟩ := hres
    simp [tablePend]
  | cons u rest ih =>
    intro S s s1 S1 hres s2 hext
    simp only [tablePend] at hres ⊢
    cases ha : (runType env ks fuel (.typ u) S s).res with
    | error e => simp [ha] at hres
    | ok p =>
      obtain ⟨sA, SA⟩ := p
      simp only [ha] at hres
      have hextA1 : TypeExt sA s1 :=
        ((tablePend_inv env ks fuel rest (if S.isEmpty then S else SA) sA).2 s1 S1 hres).2
      have hrwa := runType_rerun env ks fuel (.typ u) S s sA SA ha s2 (hextA1.trans hext)
      have hrwb := ih (if S.isEmpty then S else SA) sA s1 S1 hres s2 hext
      rw [hrwa]
      simp only [List.isEmpty_iff] at hrwb
      simp [hrwb, ha, hres]

theorem typePhase_rerun (env : UDTEnv) (ks : String) (fuel : Nat) :
    ∀ (cols : List ModelColumn) (S : List String) (s s1 : LiveKeyspace) (S1 : List String),
      (typePhase env ks fuel cols S s).res = .ok (s1, S1) →
      ∀ s2, TypeExt s1 s2 →
        typePhase env ks fuel cols S s2 =
          ⟨[], (typePhase env ks fuel cols S s).calls, .ok (s2, S1)⟩ := by
  intro cols
  induction cols with
  | nil =>
    intro S s s1 S1 hres s2 hext
    simp only [typePhase, Except.ok.injEq, Prod.mk.injEq] at hres
    obtain ⟨rfl, rfl⟩ := hres
    simp [typePhase]
  | cons col rest ih =>
    intro S s s1 S1 hres s2 hext
    simp only [typePhase] at hres ⊢
    cases ha : (tablePend env ks fuel (pendingOf S col.resolved_udts) S s).res with
    | error e => simp [ha] at hres
    | ok p =>
      obtain ⟨sA, SA⟩ := p
      simp only [ha] at hres
      have hextA1 : TypeExt sA s1 :=
        ((typePhase_inv env ks fuel rest SA sA).2 s1 S1 hres).2
      have hrwa := tablePend_rerun env ks fuel (pendingOf S col.resolved_udts) S s sA SA ha s2
        (hextA1.trans hext)
      have hrwb := ih SA sA s1 S1 hres s2 hext
      rw [hrwa]
      simp [hrwb, ha, hres]

/-! ## Frame and postcondition lemmas for the table phases (for C1) -/

theorem applyStmt_createTable_post {s s' : LiveKeyspace} {m : TableModel}
    (h : applyStmt s (.createTable m) = .ok s') :
    alookup s'.tables m.raw_cf_name =
      some ⟨m.columns.map (fun c => c.db_field_name),
            (m.columns.filter (fun c => c.primary_key)).map (fun c => c.db_field_name),
            [], m.options⟩ ∧
    nodupB (m.columns.map (fun c => c.db_field_name)) = true ∧
    s'.user_types = s.user_types := by
  simp only [applyStmt] at h
  by_cases hex : (alookup s.tables m.raw_cf_name).isSome
  · simp [hex] at h
  · simp only [hex, Bool.false_eq_true, if_false] at h
    by_cases hnd : !nodupB (m.columns.map (fun c => c.db_field_name))
    · simp [hnd] at h
    · simp only [hnd, Bool.false_eq_true, if_false, Except.ok.injEq] at h
      subst h
      refine ⟨by simp [alookup_aset_self], ?_, rfl⟩
      simpa using hnd

theorem applyStmt_alterTableAdd_post {s s' : LiveKeyspace} {cf raw db cd : String}
    {t : LiveTable} (ht : alookup s.tables raw = some t)
    (h : applyStmt s (.alterTableAdd cf raw db cd) = .ok s') :
    db ∉ t.columns ∧
    s'.tables = aset s.tables raw ({ t with columns := t.columns ++ [db] }) ∧
    s'.user_types = s.user_types := by
  simp only [applyStmt, ht] at h
  by_cases hdb : db ∈ t.columns
  · simp [hdb] at h
  · simp only [hdb, if_false, if_neg hdb, Except.ok.injEq] at h
    subst h
    exact ⟨hdb, rfl, rfl⟩

theorem applyStmt_createIndex_post {s s' : LiveKeyspace} {idx cf raw db : String}
    {t : LiveTable} (ht : alookup s.tables raw = some t)
    (h : applyStmt s (.createIndex idx cf raw db) = .ok s') :
    idx ∉ t.indexes ∧
    s'.tables = aset s.tables raw ({ t with indexes := t.indexes ++ [idx] }) ∧
    s'.user_types = s.user_types := by
  simp only [applyStmt, ht] at h
  by_cases hdx : idx ∈ t.indexes
  · simp [hdx] at h
  · simp only [hdx, if_false, if_neg hdx, Except.ok.injEq] at h
    subst h
    exact ⟨hdx, rfl, rfl⟩

theorem applyStmt_alterTableWith_post {s s' : LiveKeyspace} {cf raw : String}
    {upd : List (String × OptVal)} {t : LiveTable} (ht : alookup s.tables raw = some t)
    (h : applyStmt s (.alterTableWith cf raw upd) = .ok s') :
    s'.tables = aset s.tables raw
        ({ t with options := upd.foldl (fun o nv => aset o nv.1 nv.2) t.options }) ∧
    s'.user_types = s.user_types := by
  simp only [applyStmt, ht, Except.ok.injEq] at h
  subst h
  exact ⟨rfl, rfl⟩

theorem alterAddLoop_run (cf raw : String) (fns : List String) :
    ∀ (cols : List ModelColumn) (s s' : LiveKeyspace) (t : LiveTable),
      (alterAddLoop cf raw fns cols s).2 = .ok s' →
      alookup s.tables raw = some t →
      (∀ x, fns.contains x = true → x ∈ t.columns ∧ x ∉ t.primary_key) →
      (∀ x ∈ t.primary_key, x ∈ t.columns) →
      s'.user_types = s.user_types ∧
      ∃ t', alookup s'.tables raw = some t' ∧
        t'.primary_key = t.primary_key ∧ t'.options = t.options ∧ t'.indexes = t.indexes ∧
        (∀ x ∈ t.columns, x ∈ t'.columns) ∧
        (∀ col ∈ cols, col.primary_key = false → col.partition_key = false →
          col.db_field_name ∈ t'.columns ∧ col.db_field_name ∉ t.primary_key) := by
  intro cols
  induction cols with
  | nil =>
    intro s s' t h ht hfns hpk
    simp only [alterAddLoop, Except.ok.injEq] at h
    subst h
    exact ⟨rfl, t, ht, rfl, rfl, rfl, fun x hx => hx, by simp⟩
  | cons col rest ih =>
    intro s s' t h ht hfns hpk
    by_cases hpkc : (col.primary_key || col.partition_key) = true
    · rw [alterAddLoop, if_pos hpkc] at h
      obtain ⟨hut, t', hl, hp, ho, hi, hcsub, hcols⟩ := ih s s' t h ht hfns hpk
      refine ⟨hut, t', hl, hp, ho, hi, hcsub, ?_⟩
      intro c hc hc1 hc2
      rcases List.mem_cons.1 hc with h1 | h1
      · subst h1
        rw [hc1, hc2] at hpkc
        simp at hpkc
      · exact hcols c h1 hc1 hc2
    · rw [alterAddLoop, if_neg hpkc] at h
      by_cases hin : fns.contains col.db_field_name = true
      · rw [if_pos hin] at h
        obtain ⟨hut, t', hl, hp, ho, hi, hcsub, hcols⟩ := ih s s' t h ht hfns hpk
        refine ⟨hut, t', hl, hp, ho, hi, hcsub, ?_⟩
        intro c hc hc1 hc2
        rcases List.mem_cons.1 hc with h1 | h1
        · subst h1
          obtain ⟨hmem, hnpk⟩ := hfns _ hin
          exact ⟨hcsub _ hmem, hnpk⟩
        · exact hcols c h1 hc1 hc2
      · rw [if_neg hin] at h
        cases happ : applyStmt s (Stmt.alterTableAdd cf raw col.db_field_name col.column_def) with
        | error e => rw [happ] at h; simp at h
        | ok s0 =>
          rw [happ] at h
          obtain ⟨hnotin, hs0t, hs0u⟩ := applyStmt_alterTableAdd_post ht happ
          have ht0 : alookup s0.tables raw =
              some ({ t with columns := t.columns ++ [col.db_field_name] }) := by
            rw [hs0t]; simp [alookup_aset_self]
          have hnpk : col.db_field_name ∉ t.primary_key := fun hcontra =>
            hnotin (hpk _ hcontra)
          obtain ⟨hut, t', hl, hp, ho, hi, hcsub, hcols⟩ := ih s0 s' _ h ht0
            (fun x hx => ⟨List.mem_append_left _ (hfns x hx).1, (hfns x hx).2⟩)
            (fun x hx => List.mem_append_left _ (hpk x hx))
          have hut' : s'.user_types = s.user_types := by rw [hut, hs0u]
          refine ⟨hut', t', hl, hp, ho, hi,
            fun x hx => hcsub _ (List.mem_append_left _ hx), ?_⟩
          intro c hc hc1 hc2
          rcases List.mem_cons.1 hc with h1 | h1
          · subst h1
            exact ⟨hcsub _ (List.mem_append_right _ (List.mem_singleton_self _)), hnpk⟩
          · exact hcols c h1 hc1 hc2

theorem indexLoop_run (cf raw : String) (snap : List String) :
    ∀ (cols : List ModelColumn) (s s' : LiveKeyspace) (t : LiveTable),
      (indexLoop cf raw snap cols s).2 = .ok s' →
      alookup s.tables raw = some t →
      (∀ x, snap.contains x = true → x ∈ t.indexes) →
      s'.user_types = s.user_types ∧
      ∃ t', alookup s'.tables raw = some t' ∧
        t'.primary_key = t.primary_key ∧ t'.options = t.options ∧ t'.columns = t.columns ∧
        (∀ x ∈ t.indexes, x ∈ t'.indexes) ∧
        (∀ col ∈ cols, indexName raw col.db_field_name ∈ t'.indexes) := by
  intro cols
  induction cols with
  | nil =>
    intro s s' t h ht hsnap
    simp only [indexLoop, Except.ok.injEq] at h
    subst h
    exact ⟨rfl, t, ht, rfl, rfl, rfl, fun x hx => hx, by simp⟩
  | cons col rest ih =>
    intro s s' t h ht hsnap
    by_cases hin : snap.contains (indexName raw col.db_field_name) = true
    · rw [indexLoop, if_pos hin] at h
      obtain ⟨hut, t', hl, hp, ho, hcl, hisub, hall⟩ := ih s s' t h ht hsnap
      refine ⟨hut, t', hl, hp, ho, hcl, hisub, ?_⟩
      intro c hc
      rcases List.mem_cons.1 hc with h1 | h1
      · subst h1
        exact hisub _ (hsnap _ hin)
      · exact hall c h1
    · rw [indexLoop, if_neg hin] at h
      cases happ : applyStmt s (Stmt.createIndex (indexName raw col.db_field_name) cf raw
          col.db_field_name) with
      | error e => rw [happ] at h; simp at h
      | ok s0 =>
        rw [happ] at h
        obtain ⟨hnotin, hs0t, hs0u⟩ := applyStmt_createIndex_post ht happ
        have ht0 : alookup s0.tables raw =
            some ({ t with indexes := t.indexes ++ [indexName raw col.db_field_name] }) := by
          rw [hs0t]; simp [alookup_aset_self]
        obtain ⟨hut, t', hl, hp, ho, hcl, hisub, hall⟩ := ih s0 s' _ h ht0
          (fun x hx => List.mem_append_left _ (hsnap x hx))
        have hut' : s'.user_types = s.user_types := by rw [hut, hs0u]
        refine ⟨hut', t', hl, hp, ho, hcl,
          fun x hx => hisub _ (List.mem_append_left _ hx), ?_⟩
        intro c hc
        rcases List.mem_cons.1 hc with h1 | h1
        · subst h1
          exact hisub _ (List.mem_append_right _ (List.mem_singleton_self _))
        · exact hall c h1

theorem indexPhase_run (m : TableModel) (s s' : LiveKeyspace) (t : LiveTable)
    (h : (indexPhase m s).2 = .ok s') (ht : alookup s.tables m.raw_cf_name = some t) :
    s'.user_types = s.user_types ∧
    ∃ t', alookup s'.tables m.raw_cf_name = some t' ∧
      t'.primary_key = t.primary_key ∧ t'.options = t.options ∧ t'.columns = t.columns ∧
      (∀ x ∈ t.indexes, x ∈ t'.indexes) ∧
      (∀ col ∈ m.columns.filter (fun c => c.index),
        indexName m.raw_cf_name col.db_field_name ∈ t'.indexes) := by
  simp only [indexPhase, ht] at h
  exact indexLoop_run m.cf_name m.raw_cf_name t.indexes
    (m.columns.filter (fun c => c.index)) s s' t h ht
    (fun x hx => by simpa using hx)

theorem update_options_run (m : TableModel) (s s' : LiveKeyspace) (t : LiveTable)
    (h : (_update_options m s).2 = .ok s')
    (ht : alookup s.tables m.raw_cf_name = some t) :
    s'.user_types = s.user_types ∧
    ∃ upd, updateOptionsDiff m.options t.options = .ok upd ∧
      ∃ t', alookup s'.tables m.raw_cf_name = some t' ∧
        t'.primary_key = t.primary_key ∧ t'.columns = t.columns ∧ t'.indexes = t.indexes ∧
        t'.options = upd.foldl (fun o nv => aset o nv.1 nv.2) t.options := by
  simp only [_update_options, ht] at h
  split at h
  · simp at h
  · next heq =>
    injection h with h
    subst h
    exact ⟨rfl, [], heq, t, ht, rfl, rfl, rfl, rfl⟩
  · next upd hne heq =>
    split at h
    · simp at h
    · next s0 happ =>
      injection h with h
      subst h
      obtain ⟨hs0t, hs0u⟩ := applyStmt_alterTableWith_post ht happ
      refine ⟨hs0u, upd, heq,
        { t with options := List.foldl (fun o nv => aset o nv.1 nv.2) t.options upd },
        ?_, rfl, rfl, rfl, rfl⟩
      rw [hs0t]
      simp [alookup_aset_self]

theorem createStep_none_cases (m : TableModel) (s s' : LiveKeyspace)
    (h : (createStep m none s).2 = .ok s') :
    applyStmt s (Stmt.createTable m) = .ok s' ∨ s' = s := by
  simp only [createStep] at h
  split at h
  · next s0 heq =>
    injection h with h
    subst h
    exact Or.inl heq
  · next e heq =>
    split at h
    · injection h with h
      subst h
      exact Or.inr rfl
    · simp at h

/-! ## Option-diff helper lemmas for the second-run argument (C1) -/

theorem nodupB_iff (l : List String) : nodupB l = true ↔ l.Nodup := by
  induction l with
  | nil => simp [nodupB]
  | cons x rest ih => simp [nodupB, List.nodup_cons, ih, and_comm]

theorem entryDiffB_self (v : OptVal)
    (hmw : ∀ l, v = .nested l → (l.map Prod.fst).Nodup) :
    entryDiffB v v = .ok false := by
  cases v with
  | scalar s => simp [entryDiffB]
  | nested m =>
    simp only [entryDiffB, Except.ok.injEq]
    rw [List.any_eq_false]
    intro kv hkv
    rw [mem_alookup_of_nodup (hmw m rfl) (by exact hkv)]
    simp

theorem updateOptionsDiff_sublist {desired live d : List (String × OptVal)}
    (h : updateOptionsDiff desired live = .ok d) : d.Sublist desired := by
  induction desired generalizing d with
  | nil =>
    simp only [updateOptionsDiff, Except.ok.injEq] at h
    subst h
    exact List.Sublist.refl []
  | cons nv rest ih =>
    obtain ⟨n, v⟩ := nv
    simp only [updateOptionsDiff] at h
    cases hlv : alookup live n with
    | none => simp [hlv] at h
    | some lv =>
      simp only [hlv] at h
      cases hb : entryDiffB lv v with
      | error e => simp [hb] at h
      | ok b =>
        simp only [hb] at h
        cases hd : updateOptionsDiff rest live with
        | error e => simp [hd] at h
        | ok d' =>
          simp only [hd, Except.ok.injEq] at h
          subst h
          cases b with
          | true => exact List.Sublist.cons₂ _ (ih hd)
          | false => exact List.Sublist.cons _ (ih hd)

theorem updateOptionsDiff_ok_entry {desired live d : List (String × OptVal)}
    (h : updateOptionsDiff desired live = .ok d) :
    ∀ n v, (n, v) ∈ desired →
      ∃ lv b, alookup live n = some lv ∧ entryDiffB lv v = .ok b := by
  induction desired generalizing d with
  | nil => intro n v hm; simp at hm
  | cons nv rest ih =>
    obtain ⟨n0, v0⟩ := nv
    simp only [updateOptionsDiff] at h
    cases hlv : alookup live n0 with
    | none => simp [hlv] at h
    | some lv0 =>
      simp only [hlv] at h
      cases hb : entryDiffB lv0 v0 with
      | error e => simp [hb] at h
      | ok b =>
        simp only [hb] at h
        cases hd : updateOptionsDiff rest live with
        | error e => simp [hd] at h
        | ok d' =>
          intro n v hm
          rcases List.mem_cons.1 hm with h1 | h1
          · injection h1 with h2 h3
            subst h2; subst h3
            exact ⟨lv0, b, hlv, hb⟩
          · exact ih hd n v h1

theorem alookup_foldl_aset {α : Type} :
    ∀ (upd : List (String × α)) (l : List (String × α)) (n : String),
      ((upd.map Prod.fst).Nodup → ∀ v, (n, v) ∈ upd →
        alookup (upd.foldl (fun o nv => aset o nv.1 nv.2) l) n = some v) ∧
      ((∀ w, (n, w) ∉ upd) →
        alookup (upd.foldl (fun o nv => aset o nv.1 nv.2) l) n = alookup l n) := by
  intro upd
  induction upd with
  | nil => intro l n; exact ⟨fun _ v hv => by simp at hv, fun _ => rfl⟩
  | cons kv rest ih =>
    obtain ⟨k, w⟩ := kv
    intro l n
    constructor
    · intro hnd v hv
      simp only [List.map_cons, List.nodup_cons] at hnd
      rcases List.mem_cons.1 hv with h1 | h1
      · injection h1 with h2 h3
        subst h2; subst h3
        have hnotin : ∀ w', (n, w') ∉ rest := by
          intro w' hw'
          exact hnd.1 (List.mem_map.2 ⟨(n, w'), hw', rfl⟩)
        rw [List.foldl_cons]
        rw [(ih (aset l n v) n).2 hnotin]
        exact alookup_aset_self l n v
      · rw [List.foldl_cons]
        exact (ih (aset l k w) n).1 hnd.2 v h1
    · intro hno
      have hne : k ≠ n := by
        rintro rfl
        exact hno w (List.mem_cons_self _ _)
      rw [List.foldl_cons]
      rw [(ih (aset l k w) n).2 (fun w' hw' => hno w' (List.mem_cons_of_mem _ hw'))]
      exact alookup_aset_other l k n w (fun hh => hne hh.symm)

theorem updateOptionsDiff_all_false {desired live : List (String × OptVal)}
    (h : ∀ n v, (n, v) ∈ desired →
      ∃ lv, alookup live n = some lv ∧ entryDiffB lv v = .ok false) :
    updateOptionsDiff desired live = .ok [] := by
  induction desired with
  | nil => rfl
  | cons nv rest ih =>
    obtain ⟨n, v⟩ := nv
    obtain ⟨lv, hlv, hb⟩ := h n v (List.mem_cons_self _ _)
    simp [updateOptionsDiff, hlv, hb,
      ih (fun n' v' hm => h n' v' (List.mem_cons_of_mem _ hm))]

theorem alterAddLoop_noop (cf raw : String) (fns : List String)
    (cols : List ModelColumn) (s : LiveKeyspace)
    (h : ∀ col ∈ cols, col.primary_key = false → col.partition_key = false →
      fns.contains col.db_field_name = true) :
    alterAddLoop cf raw fns cols s = ([], .ok s) := by
  induction cols with
  | nil => rfl
  | cons col rest ih =>
    by_cases hpk : (col.primary_key || col.partition_key) = true
    · rw [alterAddLoop, if_pos hpk]
      exact ih (fun c hc => h c (List.mem_cons_of_mem _ hc))
    · rw [alterAddLoop, if_neg hpk]
      simp only [Bool.or_eq_true, not_or, Bool.not_eq_true] at hpk
      rw [if_pos (h col (List.mem_cons_self _ _) hpk.1 hpk.2)]
      exact ih (fun c hc => h c (List.mem_cons_of_mem _ hc))

theorem indexLoop_noop (cf raw : String) (snap : List String)
    (cols : List ModelColumn) (s : LiveKeyspace)
    (h : ∀ col ∈ cols, snap.contains (indexName raw col.db_field_name) = true) :
    indexLoop cf raw snap cols s = ([], .ok s) := by
  induction cols with
  | nil => rfl
  | cons col rest ih =>
    rw [indexLoop, if_pos (h col (List.mem_cons_self _ _))]
    exact ih (fun c hc => h c (List.mem_cons_of_mem _ hc))

theorem contains_of_mem {x : String} {l : List String} (h : x ∈ l) :
    l.contains x = true :=
  List.elem_eq_true_of_mem h

theorem mem_of_contains {x : String} {l : List String} (h : l.contains x = true) :
    x ∈ l :=
  List.mem_of_elem_eq_true h

theorem non_pk_contains (t : LiveTable) (x : String) :
    (_get_non_pk_field_names t).contains x = true ↔
      x ∈ t.columns ∧ x ∉ t.primary_key := by
  constructor
  · intro h
    have hmem := mem_of_contains h
    have hf := List.mem_filter.1 hmem
    refine ⟨hf.1, fun hpk => ?_⟩
    have h2 := hf.2
    rw [contains_of_mem hpk] at h2
    simp at h2
  · rintro ⟨h1, h2⟩
    apply contains_of_mem
    apply List.mem_filter.2
    refine ⟨h1, ?_⟩
    cases hc : t.primary_key.contains x with
    | false => simp [hc]
    | true => exact absurd (mem_of_contains hc) h2

theorem created_pk_not_mem (m : TableModel) (col : ModelColumn)
    (hnd : nodupB (m.columns.map (fun c => c.db_field_name)) = true)
    (hcol : col ∈ m.columns) (h1 : col.primary_key = false) :
    col.db_field_name ∉
      ((m.columns.filter (fun c => c.primary_key)).map (fun c => c.db_field_name)) := by
  intro hmem
  obtain ⟨c2, hc2f, hc2e⟩ := List.mem_map.1 hmem
  have hc2 : c2 ∈ m.columns := (List.mem_filter.1 hc2f).1
  have hc2pk : c2.primary_key = true := by simpa using (List.mem_filter.1 hc2f).2
  have heq : c2 = col :=
    List.inj_on_of_nodup_map ((nodupB_iff _).1 hnd) hc2 hcol hc2e
  rw [heq, h1] at hc2pk
  exact Bool.false_ne_true hc2pk

theorem run2_options_noop (m : TableModel) (s1 : LiveKeyspace) (t1 : LiveTable)
    (ht1 : alookup s1.tables m.raw_cf_name = some t1)
    (hopts : ∀ n v, (n, v) ∈ m.options →
      ∃ lv, alookup t1.options n = some lv ∧ entryDiffB lv v = .ok false) :
    _update_options m s1 = ([], .ok s1) := by
  simp only [_update_options, ht1, updateOptionsDiff_all_false hopts]

theorem run1_options_post (desired live upd : List (String × OptVal))
    (hnd : (desired.map Prod.fst).Nodup)
    (hmw2 : ∀ n v, (n, v) ∈ desired → ∀ l, v = OptVal.nested l → (l.map Prod.fst).Nodup)
    (hdiff : updateOptionsDiff desired live = .ok upd) :
    ∀ n v, (n, v) ∈ desired →
      ∃ lv1, alookup (upd.foldl (fun o nv => aset o nv.1 nv.2) live) n = some lv1 ∧
        entryDiffB lv1 v = .ok false := by
  intro n v hm
  obtain ⟨lv, b, hlv, hb⟩ := updateOptionsDiff_ok_entry hdiff n v hm
  have hiff := updateOptionsDiff_mem_iff hdiff hnd n v lv hm hlv
  have hback := entryDiffB_eq_spec hb
  have hupdnd : (upd.map Prod.fst).Nodup :=
    List.Nodup.sublist ((updateOptionsDiff_sublist hdiff).map Prod.fst) hnd
  by_cases hin : (n, v) ∈ upd
  · refine ⟨v, (alookup_foldl_aset upd live n).1 hupdnd v hin, ?_⟩
    exact entryDiffB_self v (fun l hl => hmw2 n v hm l hl)
  · have hnone : ∀ w, (n, w) ∉ upd := by
      intro w hw
      have hwdes : (n, w) ∈ desired := (updateOptionsDiff_sublist hdiff).subset hw
      have h1 := mem_alookup_of_nodup hnd hm
      have h2 := mem_alookup_of_nodup hnd hwdes
      rw [h1] at h2
      injection h2 with h2
      refine hin ?_
      rw [h2]
      exact hw
    refine ⟨lv, ?_, ?_⟩
    · rw [(alookup_foldl_aset upd live n).2 hnone]
      exact hlv
    · have hbf : b = false := by
        cases b with
        | false => rfl
        | true => exact absurd (hiff.2 hback.symm) hin
      rw [hbf] at hb
      exact hb

/-- C1: idempotence of `sync_table`.  For any declared model and live
state — the state well-formed only in that live primary keys list
existing columns, and the model's options duplicate-free as Python dicts
are — if `sync_table` completes successfully (no injected create
failure), then running it again on the resulting live state executes zero
mutating statements (no CREATE TABLE, no ALTER TABLE ... add, no
ALTER TABLE ... WITH, no CREATE INDEX, and no type statements either),
repeats the same `_sync_type` invocation trace, and leaves the state
unchanged. -/
theorem C1_sync_table_idempotent (env : UDTEnv) (fuel : Nat) (m : TableModel)
    (s s1 : LiveKeyspace)
    (hwf : ∀ n tb, alookup s.tables n = some tb → ∀ x ∈ tb.primary_key, x ∈ tb.columns)
    (hnd : (m.options.map Prod.fst).Nodup)
    (hmw2 : ∀ n v, (n, v) ∈ m.options → ∀ l, v = OptVal.nested l → (l.map Prod.fst).Nodup)
    (hrun1 : (sync_table env fuel m none s).outcome = .ok s1) :
    sync_table env fuel m none s1 =
      ⟨[], (sync_table env fuel m none s).typeCalls, .ok s1⟩ := by
  by_cases hab : m.abstract = true
  · simp [sync_table, hab] at hrun1
  · simp only [sync_table, hab, if_false] at hrun1 ⊢
    cases htp : (typePhase env m.ks_name fuel m.columns [] s).res with
    | error e => simp [htp] at hrun1
    | ok p =>
      obtain ⟨sA, SA⟩ := p
      simp only [htp] at hrun1
      have htabsA : sA.tables = s.tables :=
        ((typePhase_inv env m.ks_name fuel m.columns [] s).2 sA SA htp).1
      cases halo : alookup sA.tables m.raw_cf_name with
      | none =>
        simp only [halo] at hrun1
        cases hcr : (createStep m none sA).2 with
        | error e => simp [hcr] at hrun1
        | ok s2 =>
          simp only [hcr] at hrun1
          have hix0 : (indexPhase m s2).2 = .ok s1 := hrun1
          rcases createStep_none_cases m sA s2 hcr with happ | hsame
          · obtain ⟨ht2, hnodup, hut2⟩ := applyStmt_createTable_post happ
            obtain ⟨hut1, t1, ht1, hp1, ho1, hc1, hi1, hix1⟩ :=
              indexPhase_run m s2 s1 _ hix0 ht2
            have hextS : TypeExt sA s1 := typeExt_of_user_types_eq (by rw [hut1, hut2])
            have htpr := typePhase_rerun env m.ks_name fuel m.columns [] s sA SA htp s1 hextS
            have hadd2 : alterAddLoop m.cf_name m.raw_cf_name (_get_non_pk_field_names t1)
                m.columns s1 = ([], .ok s1) := by
              apply alterAddLoop_noop
              intro col hcol h1 h2
              rw [non_pk_contains]
              constructor
              · rw [hc1]
                exact List.mem_map.2 ⟨col, hcol, rfl⟩
              · rw [hp1]
                exact created_pk_not_mem m col hnodup hcol h1
            have hopt2 : _update_options m s1 = ([], .ok s1) := by
              apply run2_options_noop m s1 t1 ht1
              intro n v hm2
              refine ⟨v, ?_, entryDiffB_self v (fun l hl => hmw2 n v hm2 l hl)⟩
              rw [ho1]
              exact mem_alookup_of_nodup hnd hm2
            have hixn2 : indexLoop m.cf_name m.raw_cf_name t1.indexes
                (m.columns.filter (fun c => c.index)) s1 = ([], .ok s1) := by
              apply indexLoop_noop
              intro col hcol
              exact contains_of_mem (hix1 col hcol)
            rw [htpr]
            simp [ht1, hadd2, hopt2, indexPhase, hixn2, htp, halo, hcr]
          · subst hsame
            simp [indexPhase, halo] at hix0
      | some tA =>
        simp only [halo] at hrun1
        cases had : (alterAddLoop m.cf_name m.raw_cf_name (_get_non_pk_field_names tA)
            m.columns sA).2 with
        | error e => simp [had] at hrun1
        | ok s2 =>
          simp only [had] at hrun1
          cases huo : (_update_options m s2).2 with
          | error e => simp [huo] at hrun1
          | ok s3 =>
            simp only [huo] at hrun1
            have hix0 : (indexPhase m s3).2 = .ok s1 := hrun1
            have halos : alookup s.tables m.raw_cf_name = some tA := by
              rw [← htabsA]; exact halo
            have hwfA : ∀ x ∈ tA.primary_key, x ∈ tA.columns := hwf _ _ halos
            obtain ⟨hut2, tB, htB, hpB, hoB, hiB, hcB, hcolsB⟩ :=
              alterAddLoop_run m.cf_name m.raw_cf_name (_get_non_pk_field_names tA)
                m.columns sA s2 tA had halo
                (fun x hx => (non_pk_contains tA x).1 hx) hwfA
            obtain ⟨hut3, upd, hdiff, tC, htC, hpC, hcC, hiC, hoC⟩ :=
              update_options_run m s2 s3 tB huo htB
            obtain ⟨hut1, t1, ht1, hp1, ho1, hc1, hi1, hix1⟩ :=
              indexPhase_run m s3 s1 tC hix0 htC
            have hextS : TypeExt sA s1 :=
              typeExt_of_user_types_eq (by rw [hut1, hut3, hut2])
            have htpr := typePhase_rerun env m.ks_name fuel m.columns [] s sA SA htp s1 hextS
            have hadd2 : alterAddLoop m.cf_name m.raw_cf_name (_get_non_pk_field_names t1)
                m.columns s1 = ([], .ok s1) := by
              apply alterAddLoop_noop
              intro col hcol h1 h2
              rw [non_pk_contains]
              obtain ⟨hmemB, hnpkA⟩ := hcolsB col hcol h1 h2
              constructor
              · rw [hc1, hcC]
                exact hmemB
              · rw [hp1, hpC, hpB]
                exact hnpkA
            have hopt2 : _update_options m s1 = ([], .ok s1) := by
              apply run2_options_noop m s1 t1 ht1
              intro n v hm2
              obtain ⟨lv1, hl1, hb1⟩ :=
                run1_options_post m.options tB.options upd hnd hmw2 hdiff n v hm2
              refine ⟨lv1, ?_, hb1⟩
              rw [ho1, hoC]
              exact hl1
            have hixn2 : indexLoop m.cf_name m.raw_cf_name t1.indexes
                (m.columns.filter (fun c => c.index)) s1 = ([], .ok s1) := by
              apply indexLoop_noop
              intro col hcol
              exact contains_of_mem (hix1 col hcol)
            rw [htpr]
            simp [ht1, hadd2, hopt2, indexPhase, hixn2, htp, halo, had, huo]

theorem C1_sync_table_idempotent_witness :
    sync_table [] 1
      ({ abstract := false, cf_name := "ks.t", raw_cf_name := "t", ks_name := "ks",
         columns := [], options := [] })
      none ⟨[("t", ⟨[], [], [], []⟩)], []⟩ =
      ⟨[], (sync_table [] 1
        ({ abstract := false, cf_name := "ks.t", raw_cf_name := "t", ks_name := "ks",
           columns := [], options := [] })
        none ⟨[], []⟩).typeCalls,
        Except.ok ⟨[("t", ⟨[], [], [], []⟩)], []⟩⟩ :=
  C1_sync_table_idempotent [] 1
    ({ abstract := false, cf_name := "ks.t", raw_cf_name := "t", ks_name := "ks",
       columns := [], options := [] })
    ⟨[], []⟩ ⟨[("t", ⟨[], [], [], []⟩)], []⟩
    (fun n tb h => by simp [alookup] at h)
    (by simp) (by simp) rfl
